import Mathlib

/-!
Verification of the tiling / filtering / checkpointing / deduplication /
compositing pipeline of `main.py` (beta-segmentinator).

The Python source is shallowly embedded: numpy / torch arrays become Lean
lists, float values become rationals, the dynamically typed `res` dictionary
of `filter_tile` becomes a structure whose mask slots carry a sum type
(`MEntry`) mirroring the fact that the masks list holds raw probability
arrays before filtering and `(anchor, cropped-binary-array)` pairs after,
and operations that raise Python runtime errors return `Option`/`none`.
-/

set_option autoImplicit false

namespace Seg

/-! ## Python `range(0, stop, step)` and the tile scheduler
(`tile_extraction_part`, main.py lines 203-267) -/

/-- The list of values of Python `range(0, stop, step)` for a positive step:
`[0, step, 2*step, ...]`, as long as the value is `< stop`
(`(stop + step - 1) / step` is the ceiling of `stop / step`). -/
def pyRange (stop step : ℕ) : List ℕ :=
  (List.range ((stop + step - 1) / step)).map (· * step)

/-- Row origins of the primary sweep: `for i in range(0, H, S)` with
`if i + T > H: break` (main.py lines 208-210). -/
def validRows (H T S : ℕ) : List ℕ :=
  (pyRange H S).takeWhile (fun i => i + T ≤ H)

/-- Column origins of the primary sweep: `for j in range(0, W, S)` with
`if j + T > W: break` (main.py lines 212-214). -/
def validCols (W T S : ℕ) : List ℕ :=
  (pyRange W S).takeWhile (fun j => j + T ≤ W)

/-- Column origins of the bottom-edge pass: `for j in range(0, W, S)` with
`if j + T >= W: break` (main.py lines 233-235) — note the strict bound. -/
def strictCols (W T S : ℕ) : List ℕ :=
  (pyRange W S).takeWhile (fun j => j + T < W)

/-- Row origins of the right-edge pass: `for i in range(0, H, S)` with
`if i + T >= H: break` (main.py lines 247-249) — note the strict bound. -/
def strictRows (H T S : ℕ) : List ℕ :=
  (pyRange H S).takeWhile (fun i => i + T < H)

/-- Tile origins `(row, col)` of the primary row-major sweep. -/
def primarySweep (H W T S : ℕ) : List (ℕ × ℕ) :=
  (validRows H T S).flatMap (fun i => (validCols W T S).map (fun j => (i, j)))

/-- Bottom-edge tiles, emitted only when `H % S ≠ 0`, anchored at row
`H - T` (main.py lines 231-243). -/
def bottomRowTiles (H W T S : ℕ) : List (ℕ × ℕ) :=
  if H % S ≠ 0 then (strictCols W T S).map (fun j => (H - T, j)) else []

/-- Right-edge tiles, emitted only when `W % S ≠ 0`, anchored at column
`W - T` (main.py lines 245-256). -/
def rightColTiles (H W T S : ℕ) : List (ℕ × ℕ) :=
  if W % S ≠ 0 then (strictRows H T S).map (fun i => (i, W - T)) else []

/-- The bottom-right corner tile, emitted only when both remainders are
non-zero (main.py lines 258-267). -/
def cornerTiles (H W T S : ℕ) : List (ℕ × ℕ) :=
  if H % S ≠ 0 ∧ W % S ≠ 0 then [(H - T, W - T)] else []

/-- All tile origins emitted by `tile_extraction_part`, in emission order. -/
def scheduledTiles (H W T S : ℕ) : List (ℕ × ℕ) :=
  primarySweep H W T S ++ bottomRowTiles H W T S ++
    rightColTiles H W T S ++ cornerTiles H W T S

/-- Pixel `(r, c)` lies inside the `T×T` tile with origin `t`. -/
def covers (T : ℕ) (t : ℕ × ℕ) (r c : ℕ) : Prop :=
  t.1 ≤ r ∧ r < t.1 + T ∧ t.2 ≤ c ∧ c < t.2 + T

instance (T : ℕ) (t : ℕ × ℕ) (r c : ℕ) : Decidable (covers T t r c) := by
  unfold covers; infer_instance

/-! ## Data model for detections (`filter_tile`, main.py lines 51-123)

Arrays become lists, floats become rationals.  A detection box is the
4-vector `[x0, y0, x1, y1]` of the source. -/

/-- A detection bounding box `[x0, y0, x1, y1]`. -/
structure Box where
  x0 : ℚ
  y0 : ℚ
  x1 : ℚ
  y1 : ℚ
deriving DecidableEq, Repr

instance : Inhabited Box := ⟨⟨0, 0, 0, 0⟩⟩

/-- Box area as computed by the source: `(b[2] - b[0]) * (b[3] - b[1])`. -/
def boxArea (b : Box) : ℚ := (b.x1 - b.x0) * (b.y1 - b.y0)

/-- A 2-D probability array (the `[1, T, T]` model mask with the leading
singleton channel axis dropped, since the source always indexes it away). -/
abbrev QMat := List (List ℚ)

/-- A 2-D integer array (a binarized mask, or the label canvas rows). -/
abbrev ZMat := List (List ℤ)

/-- Sum of all entries of a probability mask (`mask.sum()`). -/
def matSum (m : QMat) : ℚ := (m.map (fun row => row.sum)).sum

/-- Binarization `(mask >= thres).astype(int)` (main.py line 104). -/
def binarize (t : ℚ) (m : QMat) : ZMat :=
  m.map (fun row => row.map (fun q => if t ≤ q then (1 : ℤ) else 0))

/-- Python `int()` on a rational: truncation toward zero (`num tdiv den`
on a normalized rational). -/
def pyInt (q : ℚ) : ℤ := q.num.tdiv (q.den : ℤ)

/-- Truncation toward zero followed by clamping at zero, the value used as a
non-negative slice index (negative-index wraparound is not exercised). -/
def pyIdx (q : ℚ) : ℕ := (pyInt q).toNat

/-- Rectangular slice `m[r0:r1, c0:c1]` with numpy clamping semantics. -/
def cropRect (m : ZMat) (r0 r1 c0 c1 : ℕ) : ZMat :=
  ((m.drop r0).take (r1 - r0)).map (fun row => (row.drop c0).take (c1 - c0))

/-- The mask trim of main.py lines 107-112:
`mask[int(y0):int(y1), int(x0):int(x1)]` for box `[x0, y0, x1, y1]`. -/
def cropToBox (m : ZMat) (b : Box) : ZMat :=
  cropRect m (pyIdx b.y0) (pyIdx b.y1) (pyIdx b.x0) (pyIdx b.x1)

/-- An element of the dynamically typed `res["masks"]` list: a raw
probability array before the final loop, or an `((j, i), cropped-binary)`
pair after it (main.py line 107). -/
inductive MEntry where
  | raw (m : QMat)
  | anchored (a : ℕ × ℕ) (m : ZMat)
deriving DecidableEq, Repr

/-- `mask.sum()` — raises a Python `AttributeError` (here `none`) when the
entry is an `(anchor, mask)` tuple rather than an array. -/
def maskSum : MEntry → Option ℚ
  | .raw m => some (matSum m)
  | .anchored _ _ => none

/-- `(mask >= thres).astype(int)` — raises (here `none`) on a tuple entry. -/
def binEntry (t : ℚ) : MEntry → Option ZMat
  | .raw m => some (binarize t m)
  | .anchored _ _ => none

/-- The `res` dictionary of `filter_tile`: three positionally aligned
collections of scores, boxes and masks. -/
structure PyRes where
  scores : List ℚ
  boxes : List Box
  masks : List MEntry
deriving DecidableEq, Repr

/-- Boolean-array indexing `arr[index]`: keep the elements whose flag is
`true` (flags and elements are consumed in lockstep). -/
def keepMask {α : Type} : List Bool → List α → List α
  | b :: bs, x :: xs => if b then x :: keepMask bs xs else keepMask bs xs
  | _, _ => []

/-- Apply one boolean index to all three collections of a `res` dictionary
(main.py lines 60-62, 76-78, 85-87, 94-96). -/
def applyKeep (ks : List Bool) (r : PyRes) : PyRes :=
  ⟨keepMask ks r.scores, keepMask ks r.boxes, keepMask ks r.masks⟩

/-- The recognized command-line options of `parse_args` that the core
pipeline reads (main.py lines 25-32). -/
structure Args where
  thresNMS : ℚ
  thresPrediction : ℚ
  thresMask : ℚ
  thresSize : ℚ
  tileSize : ℕ
  rollingWindow : ℕ
deriving DecidableEq, Repr

/-- The default thresholds of `parse_args`. -/
def defaultArgs : Args :=
  { thresNMS := 1/10, thresPrediction := 3/5, thresMask := 19/20,
    thresSize := 3/10, tileSize := 128, rollingWindow := 10 }

/-- Coordinate translation of main.py lines 115-118: add the column origin
`j` to `x0, x1` and the row origin `i` to `y0, y1`. -/
def translateBox (j i : ℕ) (b : Box) : Box :=
  ⟨b.x0 + j, b.y0 + i, b.x1 + j, b.y1 + i⟩

/-- Shallow embedding of `filter_tile(res, tile_area, i, j)` (main.py lines
51-123); `i` is the tile's row origin and `j` its column origin.  `none`
models a Python runtime error (summing or comparing a tuple mask). -/
def filter_tile (a : Args) (res : PyRes) (tileArea : ℚ) (i j : ℕ) :
    Option PyRes :=
  let k1 := res.scores.map (fun s => decide (a.thresPrediction ≤ s))
  let r1 := applyKeep k1 res
  if r1.boxes.length = 0 then some r1 else
  let k2 := r1.boxes.map (fun b => decide (boxArea b / tileArea ≤ a.thresSize))
  let r2 := applyKeep k2 r1
  if r2.boxes.length = 0 then some r2 else
  let k3 := r2.boxes.map (fun b => decide ((30 : ℚ) < boxArea b))
  let r3 := applyKeep k3 r2
  if r3.boxes.length = 0 then some r3 else do
  let sums ← r3.masks.mapM maskSum
  let k4 := sums.map (fun s => decide ((30 : ℚ) < s))
  let r4 := applyKeep k4 r3
  if r4.boxes.length = 0 then pure r4 else do
  let nmasks ← (r4.masks.zip r4.boxes).mapM (fun p => do
    let bm ← binEntry a.thresMask p.1
    pure (MEntry.anchored (j, i) (cropToBox bm p.2)))
  pure { scores := r4.scores,
         boxes := r4.boxes.map (translateBox j i),
         masks := nmasks }

/-! ## The Detection Filter written as the spec's seven ordered steps
(spec.md section 4.3).  These definitions follow the spec's words; the
refinement theorem below compares them with `filter_tile`. -/

/-- A raw detection set as delivered by the Tile Inference Adapter: all
masks are raw probability arrays. -/
structure SpecDets where
  scores : List ℚ
  boxes : List Box
  masks : List QMat
deriving DecidableEq, Repr

/-- A raw detection set after mask binarization (spec step 5). -/
structure SpecDetsB where
  scores : List ℚ
  boxes : List Box
  masks : List ZMat
deriving DecidableEq, Repr

/-- A filtered detection set: binary masks cropped to their box, each
retaining the tile origin as an anchor (spec step 6). -/
structure SpecFiltered where
  scores : List ℚ
  boxes : List Box
  masks : List ((ℕ × ℕ) × ZMat)
deriving DecidableEq, Repr

/-- Spec step 1: keep only detections with `score ≥ thresPrediction`. -/
def specScoreStep (p : ℚ) (d : SpecDets) : SpecDets :=
  let ks := d.scores.map (fun s => decide (p ≤ s))
  ⟨keepMask ks d.scores, keepMask ks d.boxes, keepMask ks d.masks⟩

/-- Spec step 2: keep only boxes with `area / tileArea ≤ thresSize`. -/
def specRelSizeStep (ts tileArea : ℚ) (d : SpecDets) : SpecDets :=
  let ks := d.boxes.map (fun b => decide (boxArea b / tileArea ≤ ts))
  ⟨keepMask ks d.scores, keepMask ks d.boxes, keepMask ks d.masks⟩

/-- Spec step 3: keep only boxes with area `> 30`. -/
def specAbsSizeStep (d : SpecDets) : SpecDets :=
  let ks := d.boxes.map (fun b => decide ((30 : ℚ) < boxArea b))
  ⟨keepMask ks d.scores, keepMask ks d.boxes, keepMask ks d.masks⟩

/-- Spec step 4: keep only detections whose raw mask probability sum
is `> 30`. -/
def specMaskMassStep (d : SpecDets) : SpecDets :=
  let ks := d.masks.map (fun m => decide ((30 : ℚ) < matSum m))
  ⟨keepMask ks d.scores, keepMask ks d.boxes, keepMask ks d.masks⟩

/-- Spec step 5: binarize every surviving mask at `thresMask`. -/
def specBinarizeStep (t : ℚ) (d : SpecDets) : SpecDetsB :=
  ⟨d.scores, d.boxes, d.masks.map (binarize t)⟩

/-- Spec step 6: crop each binary mask to its box's pixel extent, pairing
it with the tile-origin anchor `(j, i)`. -/
def specCropStep (i j : ℕ) (d : SpecDetsB) : SpecFiltered :=
  ⟨d.scores, d.boxes,
    (d.masks.zip d.boxes).map (fun p => ((j, i), cropToBox p.1 p.2))⟩

/-- Spec step 7: translate boxes to image-global coordinates by adding
`(originCol, originRow, originCol, originRow)`. -/
def specTranslateStep (i j : ℕ) (d : SpecFiltered) : SpecFiltered :=
  ⟨d.scores, d.boxes.map (translateBox j i), d.masks⟩

/-- The four threshold steps of the Detection Filter in the spec's order,
with the spec's early exit at any step that empties the set. -/
def specThresholds (a : Args) (tileArea : ℚ) (d : SpecDets) : SpecDets :=
  let d1 := specScoreStep a.thresPrediction d
  if d1.boxes.length = 0 then d1 else
  let d2 := specRelSizeStep a.thresSize tileArea d1
  if d2.boxes.length = 0 then d2 else
  let d3 := specAbsSizeStep d2
  if d3.boxes.length = 0 then d3 else
  specMaskMassStep d3

/-- The spec's Detection Filter: steps 1-7 in the stated order, with early
exit (returning the empty set) at any step that empties the set. -/
def specFilter (a : Args) (d : SpecDets) (tileArea : ℚ) (i j : ℕ) :
    SpecFiltered :=
  let d4 := specThresholds a tileArea d
  if d4.boxes.length = 0 then ⟨d4.scores, d4.boxes, []⟩ else
  specTranslateStep i j (specCropStep i j (specBinarizeStep a.thresMask d4))

/-- Inject an adapter-normalized raw detection set into the dynamically
typed `res` representation. -/
def toPy (d : SpecDets) : PyRes := ⟨d.scores, d.boxes, d.masks.map MEntry.raw⟩

/-- Read a filtered detection set as the `res` dictionary the source
returns from `filter_tile`. -/
def pyOfFiltered (d : SpecFiltered) : PyRes :=
  ⟨d.scores, d.boxes, d.masks.map (fun p => MEntry.anchored p.1 p.2)⟩

/-- The three collections of a raw detection set are positionally aligned
(the shape the Tile Inference Adapter guarantees). -/
def alignedDets (d : SpecDets) : Prop :=
  d.scores.length = d.boxes.length ∧ d.masks.length = d.boxes.length

instance (d : SpecDets) : Decidable (alignedDets d) := by
  unfold alignedDets; infer_instance

/-! ## Per-tile processing and the checkpoint pass
(`extract_tile_run_model_save` and `tile_extraction_part`,
main.py lines 179-267).  The external model is a parameter mapping a tile
origin to the adapter-normalized raw detections for that tile; each
function returns the list of checkpoint records it writes, in write
order.  `none` models a Python runtime error. -/

/-- Tile area `args.tile_size ** 2` as a rational. -/
def tileAreaOf (a : Args) : ℚ := ((a.tileSize : ℚ)) ^ 2

/-- `extract_tile_run_model_save` (main.py lines 179-189): run the model on
the tile at `(i, j)`, filter, and write one record only when the filtered
set is non-empty. -/
def extract_tile_run_model_save (a : Args) (detect : ℕ → ℕ → SpecDets)
    (i j : ℕ) : Option (List PyRes) := do
  let res ← filter_tile a (toPy (detect i j)) (tileAreaOf a) i j
  pure (if res.boxes.length ≠ 0 then [res] else [])

/-- The primary-sweep loop of `tile_extraction_part` (main.py lines
208-228): records written via `extract_tile_run_model_save`. -/
def primaryPartRecords (a : Args) (H W : ℕ) (detect : ℕ → ℕ → SpecDets) :
    Option (List PyRes) := do
  let recs ← (primarySweep H W a.tileSize a.rollingWindow).mapM
    (fun t => extract_tile_run_model_save a detect t.1 t.2)
  pure recs.flatten

/-- One edge-pass tile (main.py lines 237-242, 250-255, 260-266): filter
and write the record unconditionally — no emptiness check. -/
def edgeTileRecord (a : Args) (detect : ℕ → ℕ → SpecDets) (t : ℕ × ℕ) :
    Option PyRes :=
  filter_tile a (toPy (detect t.1 t.2)) (tileAreaOf a) t.1 t.2

/-- `tile_extraction_part` (main.py lines 203-267): the full sequence of
checkpoint records written, in write order. -/
def tile_extraction_part (a : Args) (H W : ℕ)
    (detect : ℕ → ℕ → SpecDets) : Option (List PyRes) := do
  let prim ← primaryPartRecords a H W detect
  let bot ← (bottomRowTiles H W a.tileSize a.rollingWindow).mapM
    (edgeTileRecord a detect)
  let rgt ← (rightColTiles H W a.tileSize a.rollingWindow).mapM
    (edgeTileRecord a detect)
  let cor ← (cornerTiles H W a.tileSize a.rollingWindow).mapM
    (edgeTileRecord a detect)
  pure (prim ++ bot ++ rgt ++ cor)

/-! ## The Checkpoint Store reload (`load_all_steps`, main.py lines
132-168) -/

/-- One element of a stored record's `boxes` collection: a 1-D array (one
box) or a 2-D array (a stack of boxes), the shape irregularity the loader
normalizes (main.py lines 140-145). -/
inductive BoxEntry where
  | single (b : Box)
  | multi (bs : List Box)
deriving DecidableEq, Repr

/-- One element of a stored record's `scores` collection: a 0-D scalar
(reshaped via `view(1)`) or a 1-D vector (main.py lines 147-151). -/
inductive ScoreEntry where
  | scalar (s : ℚ)
  | vector (v : List ℚ)
deriving DecidableEq, Repr

/-- One pickled checkpoint record `{scores, masks, boxes}`
(`save_intermediate_step`, main.py lines 126-129). -/
structure StoredRecord where
  scores : List ScoreEntry
  boxes : List BoxEntry
  masks : List ((ℕ × ℕ) × ZMat)
deriving DecidableEq, Repr

/-- The aggregated set produced by the loader. -/
structure AggSet where
  scores : List ℚ
  boxes : List Box
  masks : List ((ℕ × ℕ) × ZMat)
deriving DecidableEq, Repr

/-- Flatten one record's `boxes` entries (main.py lines 140-145). -/
def flattenBoxes (entries : List BoxEntry) : List Box :=
  entries.flatMap (fun e => match e with
    | .single b => [b]
    | .multi bs => bs)

/-- One record's `scores` entries as the 1-D chunks handed to
`torch.cat` (main.py lines 147-151). -/
def scoreChunks (entries : List ScoreEntry) : List (List ℚ) :=
  entries.map (fun e => match e with
    | .scalar s => [s]
    | .vector v => v)

/-- `load_all_steps` (main.py lines 132-168) over the in-order list of
records found in the directory.  `none` models the runtime error that
`torch.vstack` / `torch.cat` raise on an empty input list. -/
def load_all_steps (records : List StoredRecord) : Option AggSet :=
  let boxes := records.flatMap (fun r => flattenBoxes r.boxes)
  let chunks := records.flatMap (fun r => scoreChunks r.scores)
  let masks := records.flatMap (fun r => r.masks)
  if boxes = [] then none
  else if chunks = [] then none
  else some ⟨chunks.flatten, boxes, masks⟩

/-- The per-detection triples `(box, score, mask)` a well-formed record
stores, in record order. -/
def recordTriples (r : StoredRecord) : List (Box × ℚ × ((ℕ × ℕ) × ZMat)) :=
  (flattenBoxes r.boxes).zip (((scoreChunks r.scores).flatten).zip r.masks)

/-- A stored record is well-formed when its three flattened collections
have equal lengths (what `save_intermediate_step` always writes). -/
def recordWF (r : StoredRecord) : Prop :=
  ((scoreChunks r.scores).flatten).length = (flattenBoxes r.boxes).length ∧
    r.masks.length = (flattenBoxes r.boxes).length

instance (r : StoredRecord) : Decidable (recordWF r) := by
  unfold recordWF; infer_instance

/-! ## The Global Deduplicator (spec.md section 4.5; main.py lines
328-335).  The greedy non-max suppression itself is the external
`torchvision.ops.nms` call, which is not part of this repository's
source. -/

/-- Intersection-over-Union of two boxes. -/
def iou (b1 b2 : Box) : ℚ :=
  let ix := max 0 (min b1.x1 b2.x1 - max b1.x0 b2.x0)
  let iy := max 0 (min b1.y1 b2.y1 - max b1.y0 b2.y0)
  let inter := ix * iy
  inter / (boxArea b1 + boxArea b2 - inter)

/-- The highest-scoring index among `rem` (earliest wins ties). -/
def argmaxScore (scores : List ℚ) (rem : List ℕ) : ℕ :=
  rem.foldl (fun acc k => if scores.getD acc 0 < scores.getD k 0 then k else acc)
    (rem.headD 0)

/-- Modelled from the spec: one greedy round structure of
`torchvision.ops.nms` (spec.md section 4.5) — accept the highest-scoring
remaining box, suppress every unaccepted box whose IoU with it exceeds the
threshold, repeat.  The fuel argument only bounds the recursion; it is
always called with enough fuel. -/
def nmsGo (boxes : List Box) (scores : List ℚ) (t : ℚ) :
    ℕ → List ℕ → List ℕ
  | 0, _ => []
  | _, [] => []
  | fuel + 1, rem =>
    let best := argmaxScore scores rem
    best :: nmsGo boxes scores t fuel
      (rem.filter (fun k => decide (k ≠ best) &&
        decide (iou (boxes.getD best default) (boxes.getD k default) ≤ t)))

/-- Modelled from the spec: `torchvision.ops.nms(boxes, scores, thres)`
(spec.md section 4.5) — the kept indices, by descending score, ties broken
by original order. -/
def nms (boxes : List Box) (scores : List ℚ) (t : ℚ) : List ℕ :=
  nmsGo boxes scores t boxes.length (List.range boxes.length)

/-- Applying the kept-index list uniformly to boxes, scores and masks
(main.py lines 330-335). -/
def applyIndices (agg : AggSet) (idxs : List ℕ) : AggSet :=
  ⟨idxs.map (fun k => agg.scores.getD k 0),
   idxs.map (fun k => agg.boxes.getD k default),
   idxs.map (fun k => agg.masks.getD k ((0, 0), []))⟩

/-- Rebuild an aggregated set from positionally aligned triples. -/
def aggOfTriples (l : List (Box × ℚ × ((ℕ × ℕ) × ZMat))) : AggSet :=
  ⟨l.map (fun p => p.2.1), l.map (fun p => p.1), l.map (fun p => p.2.2)⟩

/-! ## The Canvas Compositor (main.py lines 339-353) -/

/-- `numpy.zeros(shape)` as an integer canvas. -/
def zeros (H W : ℕ) : ZMat := List.replicate H (List.replicate W (0 : ℤ))

/-- Map with the element's index, starting from `n`. -/
def mapWithIdx {α β : Type} (f : ℕ → α → β) : ℕ → List α → List β
  | _, [] => []
  | n, x :: xs => f n x :: mapWithIdx f (n + 1) xs

/-- Read canvas cell `(r, c)`, zero outside the canvas. -/
def getCell (m : ZMat) (r c : ℕ) : ℤ := (m.getD r []).getD c 0

/-- `mask * (i + 1)` (main.py line 346). -/
def scaleMask (k : ℤ) (m : ZMat) : ZMat := m.map (fun row => row.map (k * ·))

/-- `mask.shape[1]`: the row width of a rectangular array. -/
def matWidth (m : ZMat) : ℕ := (m.headD []).length

/-- `mask[0:h, 0:w]` with integer bounds clamped at zero. -/
def cropInt (m : ZMat) (h w : ℤ) : ZMat :=
  (m.take h.toNat).map (fun row => row.take w.toNat)

/-- `canvas[r0:r0+mask.shape[0], c0:c0+mask.shape[1]] += mask`: add the
mask into the canvas at offset `(r0, c0)`.  Exact for the in-bounds
additions the pipeline performs (numpy would raise on a slice clipped by
the canvas edge; here the out-of-canvas part is dropped). -/
def addAt (canvas : ZMat) (r0 c0 : ℤ) (m : ZMat) : ZMat :=
  mapWithIdx (fun r row =>
    mapWithIdx (fun c v =>
      if r0 ≤ (r : ℤ) ∧ (r : ℤ) < r0 + m.length ∧ c0 ≤ (c : ℤ) ∧
          (c : ℤ) < c0 + ((m.getD ((r : ℤ) - r0).toNat []).length : ℤ)
      then v + (m.getD ((r : ℤ) - r0).toNat []).getD ((c : ℤ) - c0).toNat 0
      else v) 0 row) 0 canvas

/-- The mask actually added for detection `i` (main.py lines 343-349):
scaled by `i + 1`, and further cropped to the smaller of the mask shape
and the box extent when the two disagree. -/
def effectiveMask (idx : ℕ) (b : Box) (am : (ℕ × ℕ) × ZMat) : ZMat :=
  let mask := scaleMask ((idx : ℤ) + 1) am.2
  if pyInt b.y1 - pyInt b.y0 ≠ (mask.length : ℤ) ∨
      pyInt b.x1 - pyInt b.x0 ≠ (matWidth mask : ℤ) then
    cropInt mask (min (mask.length : ℤ) (pyInt b.y1 - pyInt b.y0))
      (min (matWidth mask : ℤ) (pyInt b.x1 - pyInt b.x0))
  else mask

/-- One iteration of the compositing loop (main.py lines 342-353). -/
def compositeStep (canvas : ZMat) (idx : ℕ) (b : Box)
    (am : (ℕ × ℕ) × ZMat) : ZMat :=
  addAt canvas (pyInt b.y0) (pyInt b.x0) (effectiveMask idx b am)

/-- The full compositing pass: a zero canvas of the original image shape,
then every surviving detection added in deduplicated order. -/
def composite (H W : ℕ) (boxes : List Box)
    (masks : List ((ℕ × ℕ) × ZMat)) : ZMat :=
  (List.range boxes.length).foldl
    (fun canvas i => compositeStep canvas i (boxes.getD i default)
      (masks.getD i ((0, 0), [])))
    (zeros H W)

/-- The pointwise contribution of a mask added at offset `(r0, c0)` to
cell `(r, c)` — the added term of `addAt` at that cell. -/
def maskContrib (r0 c0 : ℤ) (m : ZMat) (r c : ℕ) : ℤ :=
  if r0 ≤ (r : ℤ) ∧ (r : ℤ) < r0 + m.length ∧ c0 ≤ (c : ℤ) ∧
      (c : ℤ) < c0 + ((m.getD ((r : ℤ) - r0).toNat []).length : ℤ)
  then (m.getD ((r : ℤ) - r0).toNat []).getD ((c : ℤ) - c0).toNat 0
  else 0

/-- The contribution of detection `i` to canvas cell `(r, c)`. -/
def detContrib (boxes : List Box) (masks : List ((ℕ × ℕ) × ZMat))
    (i : ℕ) (r c : ℕ) : ℤ :=
  maskContrib (pyInt (boxes.getD i default).y0) (pyInt (boxes.getD i default).x0)
    (effectiveMask i (boxes.getD i default) (masks.getD i ((0, 0), []))) r c

/-- All mask entries are binary (what the Detection Filter stores). -/
def binaryMasks (masks : List ((ℕ × ℕ) × ZMat)) : Prop :=
  ∀ p ∈ masks, ∀ row ∈ p.2, ∀ v ∈ row, v = 0 ∨ v = 1

instance (masks : List ((ℕ × ℕ) × ZMat)) : Decidable (binaryMasks masks) := by
  unfold binaryMasks; infer_instance

/-! ## Input normalization (`normalize_8_bit`, main.py lines 38-48) -/

/-- The numpy pixel dtypes relevant to `normalize_8_bit`'s dispatch. -/
inductive NpDtype where
  | int8 | uint8 | int16 | uint16 | int32 | uint32 | int64 | uint64
  | float16 | float32 | float64 | complex64 | complex128 | boolType
deriving DecidableEq, Repr

/-- Divide every pixel by a constant. -/
def divImage (img : QMat) (d : ℚ) : QMat :=
  img.map (fun row => row.map (· / d))

/-- `normalize_8_bit(image)` (main.py lines 38-48): a dtype-dispatched
dynamic-range division, raising `Exception("Invalid dtype ...")` on every
unlisted dtype. -/
def normalize_8_bit (d : NpDtype) (img : QMat) : Except String QMat :=
  if d = NpDtype.int8 then Except.ok (divImage img (2 ^ 8))
  else if d = NpDtype.float16 ∨ d = NpDtype.uint16 then
    Except.ok (divImage img (2 ^ 16))
  else if d = NpDtype.float32 ∨ d = NpDtype.uint32 then
    Except.ok (divImage img (2 ^ 32))
  else if d = NpDtype.float64 ∨ d = NpDtype.uint64 then
    Except.ok (divImage img (2 ^ 64))
  else Except.error "Invalid dtype"

/-! ## The pipeline prologue's directory access (main.py lines 298-300,
406-407) -/

/-- A directory path as its list of components. -/
abbrev DirPath := List String

/-- The pipeline events claim C10 is about, in program order. -/
inductive PEvent where
  | listedStep1 | madeStep1 | loadedModel | processedTiles
deriving DecidableEq, Repr

/-- Lines 298-303 of `pipeline`: `os.listdir(<output>/step1)` is evaluated
inside the `if` condition before `os.makedirs` runs and before the model
is loaded; a missing directory raises `FileNotFoundError` (and the
`or True` makes the branch otherwise unconditional). -/
def pipeline_prologue (dirs : List DirPath) (out : String) :
    List PEvent × Option String :=
  if [out, "step1"] ∈ dirs then
    ([PEvent.listedStep1, PEvent.madeStep1, PEvent.loadedModel,
      PEvent.processedTiles], none)
  else ([], some "FileNotFoundError")

/-- Lines 406-407 of the main block create only the top-level output
directory (never `step1`), then `pipeline` runs. -/
def run_main (dirs : List DirPath) (out : String) :
    List PEvent × Option String :=
  pipeline_prologue (if [out] ∈ dirs then dirs else [out] :: dirs) out

end Seg

namespace Seg

/-! ## Scheduler lemmas -/

theorem takeWhile_eq_filter_of_antitone {p : ℕ → Bool} :
    ∀ l : List ℕ, l.Pairwise (· ≤ ·) →
      (∀ a b : ℕ, a ≤ b → p b = true → p a = true) →
      l.takeWhile p = l.filter p
  | [], _, _ => rfl
  | x :: xs, hl, hp => by
    rcases List.pairwise_cons.mp hl with ⟨hx, hxs⟩
    by_cases hpx : p x = true
    · rw [List.takeWhile_cons_of_pos hpx, List.filter_cons_of_pos hpx,
        takeWhile_eq_filter_of_antitone xs hxs hp]
    · rw [List.takeWhile_cons_of_neg (by simpa using hpx),
        List.filter_cons_of_neg (by simpa using hpx)]
      have : xs.filter p = [] := List.filter_eq_nil_iff.mpr (fun y hy hpy =>
        hpx (hp x y (hx y hy) hpy))
      rw [this]

theorem pairwise_le_pyRange (stop step : ℕ) :
    (pyRange stop step).Pairwise (· ≤ ·) := by
  unfold pyRange
  rw [List.pairwise_map]
  exact (List.pairwise_lt_range _).imp
    (fun h => Nat.mul_le_mul_right _ (Nat.le_of_lt h))

theorem lt_ceilDiv_iff {step : ℕ} (hs : 0 < step) (k stop : ℕ) :
    k < (stop + step - 1) / step ↔ k * step < stop := by
  rw [Nat.lt_iff_add_one_le, Nat.le_div_iff_mul_le hs, add_mul, one_mul]
  omega

theorem mem_pyRange {stop step : ℕ} (hs : 0 < step) {x : ℕ} :
    x ∈ pyRange stop step ↔ (∃ k, x = k * step) ∧ x < stop := by
  unfold pyRange
  simp only [List.mem_map, List.mem_range]
  constructor
  · rintro ⟨k, hk, rfl⟩
    exact ⟨⟨k, rfl⟩, (lt_ceilDiv_iff hs k stop).mp hk⟩
  · rintro ⟨⟨k, rfl⟩, hx⟩
    exact ⟨k, (lt_ceilDiv_iff hs k stop).mpr hx, rfl⟩

theorem mem_takeWhile_le {L T S : ℕ} (hS : 0 < S) (hT : 0 < T) {x : ℕ} :
    x ∈ (pyRange L S).takeWhile (fun v => v + T ≤ L) ↔
      (∃ k, x = k * S) ∧ x + T ≤ L := by
  rw [takeWhile_eq_filter_of_antitone _ (pairwise_le_pyRange L S)
    (fun a b hab hb => by simp only [decide_eq_true_eq] at hb ⊢; omega),
    List.mem_filter, mem_pyRange hS]
  simp only [decide_eq_true_eq]
  constructor
  · rintro ⟨⟨hk, _⟩, h2⟩; exact ⟨hk, h2⟩
  · rintro ⟨hk, h2⟩; exact ⟨⟨hk, by omega⟩, h2⟩

theorem mem_takeWhile_lt {L T S : ℕ} (hS : 0 < S) {x : ℕ} :
    x ∈ (pyRange L S).takeWhile (fun v => v + T < L) ↔
      (∃ k, x = k * S) ∧ x + T < L := by
  rw [takeWhile_eq_filter_of_antitone _ (pairwise_le_pyRange L S)
    (fun a b hab hb => by simp only [decide_eq_true_eq] at hb ⊢; omega),
    List.mem_filter, mem_pyRange hS]
  simp only [decide_eq_true_eq]
  constructor
  · rintro ⟨⟨hk, _⟩, h2⟩; exact ⟨hk, h2⟩
  · rintro ⟨hk, h2⟩; exact ⟨⟨hk, by omega⟩, h2⟩

theorem mem_primarySweep {H W T S : ℕ} (hS : 0 < S) (hT : 0 < T)
    {t : ℕ × ℕ} :
    t ∈ primarySweep H W T S ↔
      ((∃ k, t.1 = k * S) ∧ t.1 + T ≤ H) ∧
        ((∃ k, t.2 = k * S) ∧ t.2 + T ≤ W) := by
  obtain ⟨r, c⟩ := t
  unfold primarySweep validRows validCols
  simp only [List.mem_flatMap, List.mem_map, Prod.mk.injEq]
  constructor
  · rintro ⟨i, hi, j, hj, rfl, rfl⟩
    exact ⟨(mem_takeWhile_le hS hT).mp hi, (mem_takeWhile_le hS hT).mp hj⟩
  · rintro ⟨hr, hc⟩
    exact ⟨r, (mem_takeWhile_le hS hT).mpr hr, c,
      (mem_takeWhile_le hS hT).mpr hc, rfl, rfl⟩

theorem mem_bottomRowTiles {H W T S : ℕ} (hS : 0 < S) {t : ℕ × ℕ} :
    t ∈ bottomRowTiles H W T S ↔
      H % S ≠ 0 ∧ t.1 = H - T ∧ (∃ k, t.2 = k * S) ∧ t.2 + T < W := by
  obtain ⟨r, c⟩ := t
  unfold bottomRowTiles strictCols
  by_cases hH : H % S = 0
  · simp [hH]
  · simp only [hH, ne_eq, not_false_eq_true, if_true, List.mem_map,
      Prod.mk.injEq]
    constructor
    · rintro ⟨j, hj, rfl, rfl⟩
      rcases (mem_takeWhile_lt hS).mp hj with ⟨hk, hlt⟩
      exact ⟨trivial, rfl, hk, hlt⟩
    · rintro ⟨_, rfl, hk, hlt⟩
      exact ⟨c, (mem_takeWhile_lt hS).mpr ⟨hk, hlt⟩, rfl, rfl⟩

theorem mem_rightColTiles {H W T S : ℕ} (hS : 0 < S) {t : ℕ × ℕ} :
    t ∈ rightColTiles H W T S ↔
      W % S ≠ 0 ∧ t.2 = W - T ∧ (∃ k, t.1 = k * S) ∧ t.1 + T < H := by
  obtain ⟨r, c⟩ := t
  unfold rightColTiles strictRows
  by_cases hW : W % S = 0
  · simp [hW]
  · simp only [hW, ne_eq, not_false_eq_true, if_true, List.mem_map,
      Prod.mk.injEq]
    constructor
    · rintro ⟨i, hi, rfl, rfl⟩
      rcases (mem_takeWhile_lt hS).mp hi with ⟨hk, hlt⟩
      exact ⟨trivial, rfl, hk, hlt⟩
    · rintro ⟨_, rfl, hk, hlt⟩
      exact ⟨r, (mem_takeWhile_lt hS).mpr ⟨hk, hlt⟩, rfl, rfl⟩

theorem mem_scheduledTiles {H W T S : ℕ} {t : ℕ × ℕ} :
    t ∈ scheduledTiles H W T S ↔
      t ∈ primarySweep H W T S ∨ t ∈ bottomRowTiles H W T S ∨
        t ∈ rightColTiles H W T S ∨ t ∈ cornerTiles H W T S := by
  simp [scheduledTiles, List.mem_append, or_assoc]

theorem mem_cornerTiles {H W T S : ℕ} {t : ℕ × ℕ} :
    t ∈ cornerTiles H W T S ↔
      H % S ≠ 0 ∧ W % S ≠ 0 ∧ t = (H - T, W - T) := by
  unfold cornerTiles
  by_cases hH : H % S = 0 <;> by_cases hW : W % S = 0 <;> simp [hH, hW]

/-- C1 (counterexample): with `H = 7, W = 10, T = 7, S = 5` — which satisfy
the claim's hypotheses `T ≤ H` and `T ≤ W` — the pixel `(0, 9)` lies in no
emitted tile, because `W % S = 0` suppresses the right-edge pass while the
primary sweep stops at column 0. -/
theorem coverage_fails_at_7_10_7_5 :
    7 ≤ 7 ∧ 7 ≤ 10 ∧ (0 : ℕ) < 7 ∧ (9 : ℕ) < 10 ∧
      ¬ ∃ t ∈ scheduledTiles 7 10 7 5, covers 7 t 0 9 := by decide

/-- C1 (amended): for `0 < S ≤ T ≤ H, W` the union of all tiles emitted by
the Tile Scheduler (primary sweep plus bottom-edge, right-edge and corner
extensions) covers every pixel of the `H×W` image provided both edge
passes fire, i.e. `H % S ≠ 0` and `W % S ≠ 0`. -/
theorem coverage_of_scheduled_tiles (H W T S : ℕ) (hS : 0 < S)
    (hST : S ≤ T) (hTH : T ≤ H) (hTW : T ≤ W) (hH : H % S ≠ 0)
    (hW : W % S ≠ 0) (r c : ℕ) (hr : r < H) (hc : c < W) :
    ∃ t ∈ scheduledTiles H W T S, covers T t r c := by
  have hT : 0 < T := lt_of_lt_of_le hS hST
  have hra : S * (r / S) + r % S = r := Nat.div_add_mod r S
  have hrb : r % S < S := Nat.mod_lt _ hS
  have hca : S * (c / S) + c % S = c := Nat.div_add_mod c S
  have hcb : c % S < S := Nat.mod_lt _ hS
  have hrc : S * (r / S) = (r / S) * S := Nat.mul_comm _ _
  have hcc : S * (c / S) = (c / S) * S := Nat.mul_comm _ _
  by_cases hA : r / S * S + T ≤ H
  · by_cases hB : c / S * S + T ≤ W
    · refine ⟨(r / S * S, c / S * S), mem_scheduledTiles.mpr
        (Or.inl ((mem_primarySweep hS hT).mpr
          ⟨⟨⟨r / S, rfl⟩, hA⟩, ⟨⟨c / S, rfl⟩, hB⟩⟩)), ?_⟩
      exact ⟨by omega, by omega, by omega, by omega⟩
    · by_cases hA2 : r / S * S + T < H
      · refine ⟨(r / S * S, W - T), mem_scheduledTiles.mpr
          (Or.inr (Or.inr (Or.inl ((mem_rightColTiles hS).mpr
            ⟨hW, rfl, ⟨r / S, rfl⟩, hA2⟩)))), ?_⟩
        exact ⟨by omega, by omega, by omega, by omega⟩
      · refine ⟨(H - T, W - T), mem_scheduledTiles.mpr
          (Or.inr (Or.inr (Or.inr (mem_cornerTiles.mpr ⟨hH, hW, rfl⟩)))), ?_⟩
        exact ⟨by omega, by omega, by omega, by omega⟩
  · by_cases hB : c / S * S + T < W
    · refine ⟨(H - T, c / S * S), mem_scheduledTiles.mpr
        (Or.inr (Or.inl ((mem_bottomRowTiles hS).mpr
          ⟨hH, rfl, ⟨c / S, rfl⟩, hB⟩))), ?_⟩
      exact ⟨by omega, by omega, by omega, by omega⟩
    · refine ⟨(H - T, W - T), mem_scheduledTiles.mpr
        (Or.inr (Or.inr (Or.inr (mem_cornerTiles.mpr ⟨hH, hW, rfl⟩)))), ?_⟩
      exact ⟨by omega, by omega, by omega, by omega⟩

/-- C1 (witness): the amended coverage theorem applied at the concrete
geometry `H = 13, W = 11, T = 5, S = 5` and pixel `(12, 10)`. -/
theorem coverage_of_scheduled_tiles_witness :
    (0 : ℕ) < 5 ∧ (5 : ℕ) ≤ 5 ∧ (5 : ℕ) ≤ 13 ∧ (5 : ℕ) ≤ 11 ∧
      13 % 5 ≠ 0 ∧ 11 % 5 ≠ 0 ∧ (12 : ℕ) < 13 ∧ (10 : ℕ) < 11 ∧
      ∃ t ∈ scheduledTiles 13 11 5 5, covers 5 t 12 10 :=
  ⟨by decide, by decide, by decide, by decide, by decide, by decide,
    by decide, by decide,
    coverage_of_scheduled_tiles 13 11 5 5 (by decide) (by decide)
      (by decide) (by decide) (by decide) (by decide) 12 10 (by decide)
      (by decide)⟩

/-- C7 (counterexample): with `H = 13, W = 10, T = 5, S = 5` the column
`j = 5` is valid for the primary sweep (`j + T ≤ W`), and `H % S ≠ 0`
fires the bottom-edge pass, yet no bottom-edge tile `(H − T, 5) = (8, 5)`
is emitted — the edge pass breaks at `j + T ≥ W`, not `j + T > W`. -/
theorem bottom_row_misses_flush_column :
    13 % 5 ≠ 0 ∧ (0, 5) ∈ primarySweep 13 10 5 5 ∧
      (13 - 5, 5) ∉ scheduledTiles 13 10 5 5 := by decide

/-- C7 (amended): when `H % S ≠ 0` the bottom-edge pass emits exactly the
tiles `(H − T, j)` for the stride multiples `j` with `j + T < W`
(strictly — one fewer than the primary sweep's columns whenever some
column fits flush); symmetrically for the right-edge pass. -/
theorem edge_pass_membership (H W T S : ℕ) (hS : 0 < S) (t : ℕ × ℕ) :
    (t ∈ bottomRowTiles H W T S ↔
      H % S ≠ 0 ∧ t.1 = H - T ∧ (∃ k, t.2 = k * S) ∧ t.2 + T < W) ∧
    (t ∈ rightColTiles H W T S ↔
      W % S ≠ 0 ∧ t.2 = W - T ∧ (∃ k, t.1 = k * S) ∧ t.1 + T < H) :=
  ⟨mem_bottomRowTiles hS, mem_rightColTiles hS⟩

/-- C7 (witness): the membership characterization applied at the concrete
geometry `H = 13, W = 10, T = 5, S = 5` — the bottom-edge tile `(8, 0)` is
emitted and satisfies the characterization. -/
theorem edge_pass_membership_witness :
    (0 : ℕ) < 5 ∧ ((8, 0) ∈ bottomRowTiles 13 10 5 5 ↔
      13 % 5 ≠ 0 ∧ (8 : ℕ) = 13 - 5 ∧ (∃ k, (0 : ℕ) = k * 5) ∧
        (0 : ℕ) + 5 < 10) ∧ (8, 0) ∈ bottomRowTiles 13 10 5 5 :=
  ⟨by decide, (edge_pass_membership 13 10 5 5 (by decide) (8, 0)).1,
    by decide⟩

/-! ## Boolean-indexing lemmas -/

theorem keepMask_map {α β : Type} (f : α → β) :
    ∀ (ks : List Bool) (l : List α),
      keepMask ks (l.map f) = (keepMask ks l).map f
  | [], l => by cases l <;> rfl
  | _ :: _, [] => rfl
  | b :: bs, x :: xs => by
    cases b <;> simp [keepMask, keepMask_map f bs xs]

theorem keepMask_length_le {α : Type} :
    ∀ (ks : List Bool) (l : List α), (keepMask ks l).length ≤ l.length
  | [], l => by cases l <;> simp [keepMask]
  | _ :: _, [] => by simp [keepMask]
  | b :: bs, x :: xs => by
    have h := keepMask_length_le bs xs
    cases b <;> simp [keepMask] <;> omega

theorem keepMask_length_eq {α β : Type} :
    ∀ (ks : List Bool) (xs : List α) (ys : List β), xs.length = ys.length →
      (keepMask ks xs).length = (keepMask ks ys).length
  | [], xs, ys, _ => by cases xs <;> cases ys <;> simp [keepMask]
  | _ :: _, [], ys, h => by
    cases ys with
    | nil => simp [keepMask]
    | cons y ys => simp at h
  | _ :: _, _ :: _, [], h => by simp at h
  | b :: bs, x :: xs, y :: ys, h => by
    simp only [List.length_cons, Nat.succ_inj] at h
    cases b <;> simp [keepMask, keepMask_length_eq bs xs ys h]

theorem keepMask_sublist {α : Type} :
    ∀ (ks : List Bool) (l : List α), (keepMask ks l).Sublist l
  | [], l => by cases l <;> simp [keepMask]
  | _ :: _, [] => by simp [keepMask]
  | b :: bs, x :: xs => by
    cases b with
    | false => exact List.Sublist.cons x (keepMask_sublist bs xs)
    | true => exact List.Sublist.cons₂ x (keepMask_sublist bs xs)

theorem mem_keepMask_self {α : Type} (p : α → Bool) :
    ∀ (l : List α) (x : α), x ∈ keepMask (l.map p) l → p x = true
  | [], x, h => by simp [keepMask] at h
  | a :: l, x, h => by
    by_cases hpa : p a = true
    · rw [List.map_cons, keepMask, if_pos hpa] at h
      rcases List.mem_cons.mp h with rfl | h
      · exact hpa
      · exact mem_keepMask_self p l x h
    · rw [List.map_cons, keepMask,
        if_neg (by simpa using hpa)] at h
      exact mem_keepMask_self p l x h

theorem keepMask_of_true {α β : Type} (p : α → Bool) :
    ∀ (src : List α) (xs : List β), src.length = xs.length →
      (∀ x ∈ src, p x = true) → keepMask (src.map p) xs = xs
  | [], [], _, _ => rfl
  | [], _ :: _, h, _ => by simp at h
  | _ :: _, [], h, _ => by simp at h
  | a :: src, x :: xs, h, hall => by
    simp only [List.length_cons, Nat.succ_inj] at h
    rw [List.map_cons, keepMask, if_pos (hall a (List.mem_cons_self a src)),
      keepMask_of_true p src xs h (fun y hy => hall y (List.mem_cons_of_mem a hy))]

/-! ## Refinement: `filter_tile` computes the spec's seven ordered steps -/

theorem mapM_option_loop_nil {A B : Type} (f : A → Option B) (acc : List B) :
    List.mapM.loop f [] acc = some acc.reverse := rfl

theorem mapM_option_loop_cons {A B : Type} (f : A → Option B) (x : A)
    (xs : List A) (acc : List B) :
    List.mapM.loop f (x :: xs) acc =
      (f x).bind (fun y => List.mapM.loop f xs (y :: acc)) := rfl

theorem mapM_maskSum_raw :
    ∀ l : List QMat, (l.map MEntry.raw).mapM maskSum = some (l.map matSum)
  | [] => rfl
  | m :: l => by
    rw [List.map_cons, List.mapM_cons, mapM_maskSum_raw l]
    rfl

theorem mapM_anchored_zip (t : ℚ) (i j : ℕ) :
    ∀ (ms : List QMat) (bs : List Box),
      ((ms.map MEntry.raw).zip bs).mapM (fun p =>
          (binEntry t p.1).bind
            (fun bm => pure (MEntry.anchored (j, i) (cropToBox bm p.2)))) =
        some (((ms.map (binarize t)).zip bs).map
          (fun p => MEntry.anchored (j, i) (cropToBox p.1 p.2)))
  | [], bs => rfl
  | m :: ms, [] => rfl
  | m :: ms, b :: bs => by
    rw [List.map_cons, List.zip_cons_cons, List.mapM_cons,
      mapM_anchored_zip t i j ms bs]
    rfl

theorem keep3_aligned {d : SpecDets} (ks : List Bool) (hd : alignedDets d) :
    alignedDets ⟨keepMask ks d.scores, keepMask ks d.boxes, keepMask ks d.masks⟩ :=
  ⟨keepMask_length_eq ks _ _ hd.1, keepMask_length_eq ks _ _ hd.2⟩

theorem filter_tile_refines (a : Args) (d : SpecDets) (hd : alignedDets d)
    (ta : ℚ) (i j : ℕ) :
    filter_tile a (toPy d) ta i j =
      some (pyOfFiltered (specFilter a d ta i j)) := by
  obtain ⟨s, b, m⟩ := d
  obtain ⟨h1, h2⟩ := hd
  simp only at h1 h2
  simp only [filter_tile, specFilter, specThresholds, specScoreStep,
    specRelSizeStep, specAbsSizeStep, specMaskMassStep, specBinarizeStep,
    specCropStep, specTranslateStep, toPy, pyOfFiltered, applyKeep,
    keepMask_map]
  set ks1 := s.map (fun x => decide (a.thresPrediction ≤ x)) with hks1
  by_cases hc1 : (keepMask ks1 b).length = 0
  · have hm1 : (keepMask ks1 m).length = 0 := by
      rw [keepMask_length_eq ks1 m b h2]; exact hc1
    have hs1 : (keepMask ks1 s).length = 0 := by
      rw [keepMask_length_eq ks1 s b h1]; exact hc1
    simp [hc1, List.length_eq_zero.mp hm1]
  · simp only [hc1, if_neg, if_false]
    set s1 := keepMask ks1 s
    set b1 := keepMask ks1 b
    set m1 := keepMask ks1 m
    have h1a : s1.length = b1.length := keepMask_length_eq ks1 s b h1
    have h2a : m1.length = b1.length := keepMask_length_eq ks1 m b h2
    set ks2 := b1.map (fun x => decide (boxArea x / ta ≤ a.thresSize)) with hks2
    by_cases hc2 : (keepMask ks2 b1).length = 0
    · have hm2 : (keepMask ks2 m1).length = 0 := by
        rw [keepMask_length_eq ks2 m1 b1 h2a]; exact hc2
      simp [hc2, List.length_eq_zero.mp hm2]
    · simp only [hc2, if_neg, if_false]
      set s2 := keepMask ks2 s1
      set b2 := keepMask ks2 b1
      set m2 := keepMask ks2 m1
      have h1b : s2.length = b2.length := keepMask_length_eq ks2 s1 b1 h1a
      have h2b : m2.length = b2.length := keepMask_length_eq ks2 m1 b1 h2a
      set ks3 := b2.map (fun x => decide ((30 : ℚ) < boxArea x)) with hks3
      by_cases hc3 : (keepMask ks3 b2).length = 0
      · have hm3 : (keepMask ks3 m2).length = 0 := by
          rw [keepMask_length_eq ks3 m2 b2 h2b]; exact hc3
        simp [hc3, List.length_eq_zero.mp hm3]
      · simp only [hc3, if_neg, if_false]
        set s3 := keepMask ks3 s2
        set b3 := keepMask ks3 b2
        set m3 := keepMask ks3 m2
        have h2c : m3.length = b3.length := keepMask_length_eq ks3 m2 b2 h2b
        rw [mapM_maskSum_raw m3]
        simp only [Option.bind_eq_bind, Option.some_bind, List.map_map]
        set ks4 := m3.map (fun x => decide ((30 : ℚ) < matSum x)) with hks4
        have hks4e : m3.map ((fun x => decide ((30 : ℚ) < x)) ∘ matSum) = ks4 := rfl
        rw [hks4e]
        by_cases hc4 : (keepMask ks4 b3).length = 0
        · have hm4 : (keepMask ks4 m3).length = 0 := by
            rw [keepMask_length_eq ks4 m3 b3 h2c]; exact hc4
          simp [hc4, List.length_eq_zero.mp hm4]
        · simp only [hc4, if_neg, if_false]
          rw [mapM_anchored_zip a.thresMask i j (keepMask ks4 m3) (keepMask ks4 b3)]
          simp [List.map_map, Function.comp]

/-- C3: on every adapter-aligned raw detection set, `filter_tile` computes
exactly the spec's seven steps — score threshold, relative-size threshold,
absolute-size threshold, mask-mass threshold, binarization, crop to box,
coordinate translation by `(originCol, originRow, originCol, originRow)` —
in this exact order with early exit on emptiness; and the box at
tile-local `[0,0,10,10]` for the tile with origin `(50, 20)` maps to the
global box `[20,50,30,60]`. -/
theorem filter_tile_follows_spec_order :
    (∀ (a : Args) (d : SpecDets), alignedDets d → ∀ (ta : ℚ) (i j : ℕ),
      filter_tile a (toPy d) ta i j =
        some (pyOfFiltered (specFilter a d ta i j))) ∧
    (filter_tile defaultArgs
        (toPy ⟨[9/10], [⟨0, 0, 10, 10⟩], [[[40]]]⟩) (tileAreaOf defaultArgs)
        50 20).map PyRes.boxes = some [⟨20, 50, 30, 60⟩] :=
  ⟨fun a d hd ta i j => filter_tile_refines a d hd ta i j, by
    norm_num [filter_tile, applyKeep, keepMask, maskSum, matSum, binEntry,
      binarize, cropToBox, cropRect, pyIdx, pyInt, toPy, defaultArgs,
      boxArea, translateBox, tileAreaOf, List.mapM, mapM_option_loop_cons,
      mapM_option_loop_nil, Option.bind_eq_bind]⟩

/-- C3 (witness): the refinement applied to the concrete one-detection set
of the coordinate-translation example. -/
theorem filter_tile_follows_spec_order_witness :
    alignedDets ⟨[9/10], [⟨0, 0, 10, 10⟩], [[[40]]]⟩ ∧
      filter_tile defaultArgs (toPy ⟨[9/10], [⟨0, 0, 10, 10⟩], [[[40]]]⟩)
          (tileAreaOf defaultArgs) 50 20 =
        some (pyOfFiltered (specFilter defaultArgs
          ⟨[9/10], [⟨0, 0, 10, 10⟩], [[[40]]]⟩ (tileAreaOf defaultArgs)
          50 20)) :=
  ⟨by decide, filter_tile_follows_spec_order.1 defaultArgs
    ⟨[9/10], [⟨0, 0, 10, 10⟩], [[[40]]]⟩ (by decide)
    (tileAreaOf defaultArgs) 50 20⟩

/-! ## Idempotence of the threshold chain, non-idempotence of the full
filter -/

theorem specScoreStep_eq_self {p : ℚ} {d : SpecDets} (hd : alignedDets d)
    (h : ∀ x ∈ d.scores, p ≤ x) : specScoreStep p d = d := by
  obtain ⟨s, b, m⟩ := d
  obtain ⟨h1, h2⟩ := hd
  simp only at h1 h2 h
  have hall : ∀ x ∈ s, (fun x => decide (p ≤ x)) x = true :=
    fun x hx => decide_eq_true (h x hx)
  simp only [specScoreStep]
  rw [keepMask_of_true _ s s rfl hall, keepMask_of_true _ s b h1 hall,
    keepMask_of_true _ s m (h1.trans h2.symm) hall]

theorem specRelSizeStep_eq_self {ts ta : ℚ} {d : SpecDets}
    (hd : alignedDets d) (h : ∀ x ∈ d.boxes, boxArea x / ta ≤ ts) :
    specRelSizeStep ts ta d = d := by
  obtain ⟨s, b, m⟩ := d
  obtain ⟨h1, h2⟩ := hd
  simp only at h1 h2 h
  have hall : ∀ x ∈ b, (fun x => decide (boxArea x / ta ≤ ts)) x = true :=
    fun x hx => decide_eq_true (h x hx)
  simp only [specRelSizeStep]
  rw [keepMask_of_true _ b s h1.symm hall, keepMask_of_true _ b b rfl hall,
    keepMask_of_true _ b m h2.symm hall]

theorem specAbsSizeStep_eq_self {d : SpecDets} (hd : alignedDets d)
    (h : ∀ x ∈ d.boxes, (30 : ℚ) < boxArea x) : specAbsSizeStep d = d := by
  obtain ⟨s, b, m⟩ := d
  obtain ⟨h1, h2⟩ := hd
  simp only at h1 h2 h
  have hall : ∀ x ∈ b, (fun x => decide ((30 : ℚ) < boxArea x)) x = true :=
    fun x hx => decide_eq_true (h x hx)
  simp only [specAbsSizeStep]
  rw [keepMask_of_true _ b s h1.symm hall, keepMask_of_true _ b b rfl hall,
    keepMask_of_true _ b m h2.symm hall]

theorem specMaskMassStep_eq_self {d : SpecDets} (hd : alignedDets d)
    (h : ∀ x ∈ d.masks, (30 : ℚ) < matSum x) : specMaskMassStep d = d := by
  obtain ⟨s, b, m⟩ := d
  obtain ⟨h1, h2⟩ := hd
  simp only at h1 h2 h
  have hall : ∀ x ∈ m, (fun x => decide ((30 : ℚ) < matSum x)) x = true :=
    fun x hx => decide_eq_true (h x hx)
  simp only [specMaskMassStep]
  rw [keepMask_of_true _ m s (h2.trans h1.symm) hall,
    keepMask_of_true _ m b h2 hall, keepMask_of_true _ m m rfl hall]

theorem specThresholds_eq_self (a : Args) (ta : ℚ) {e : SpecDets}
    (he : alignedDets e) (h1 : ∀ x ∈ e.scores, a.thresPrediction ≤ x)
    (hrest : e.boxes.length = 0 ∨
      ((∀ x ∈ e.boxes, boxArea x / ta ≤ a.thresSize) ∧
        (∀ x ∈ e.boxes, (30 : ℚ) < boxArea x) ∧
        (∀ x ∈ e.masks, (30 : ℚ) < matSum x))) :
    specThresholds a ta e = e := by
  unfold specThresholds
  rw [specScoreStep_eq_self he h1]
  rcases hrest with hempty | ⟨hb2, hb3, hm4⟩
  · simp [hempty]
  · by_cases hc : e.boxes.length = 0
    · simp [hc]
    · simp only [hc, if_neg, if_false]
      rw [specRelSizeStep_eq_self he hb2]
      simp only [hc, if_neg, if_false]
      rw [specAbsSizeStep_eq_self he hb3]
      simp only [hc, if_neg, if_false]
      exact specMaskMassStep_eq_self he hm4

theorem specThresholds_idem (a : Args) (ta : ℚ) (d : SpecDets)
    (hd : alignedDets d) :
    specThresholds a ta (specThresholds a ta d) = specThresholds a ta d := by
  set d1 := specScoreStep a.thresPrediction d with hd1
  have hd1A : alignedDets d1 := by
    rw [hd1]; unfold specScoreStep; exact keep3_aligned _ hd
  have hs1 : ∀ x ∈ d1.scores, a.thresPrediction ≤ x := fun x hx =>
    of_decide_eq_true
      (mem_keepMask_self (fun x => decide (a.thresPrediction ≤ x)) d.scores x hx)
  by_cases hc1 : d1.boxes.length = 0
  · have hout : specThresholds a ta d = d1 := by
      unfold specThresholds; simp [← hd1, hc1]
    rw [hout]
    exact specThresholds_eq_self a ta hd1A hs1 (Or.inl hc1)
  · set d2 := specRelSizeStep a.thresSize ta d1 with hd2
    have hd2A : alignedDets d2 := by
      rw [hd2]; unfold specRelSizeStep; exact keep3_aligned _ hd1A
    have hs2 : ∀ x ∈ d2.scores, a.thresPrediction ≤ x := fun x hx =>
      hs1 x ((keepMask_sublist _ _).subset hx)
    have hb2 : ∀ x ∈ d2.boxes, boxArea x / ta ≤ a.thresSize := fun x hx =>
      of_decide_eq_true (mem_keepMask_self
        (fun x => decide (boxArea x / ta ≤ a.thresSize)) d1.boxes x hx)
    by_cases hc2 : d2.boxes.length = 0
    · have hout : specThresholds a ta d = d2 := by
        unfold specThresholds; simp [← hd1, hc1, ← hd2, hc2]
      rw [hout]
      exact specThresholds_eq_self a ta hd2A hs2 (Or.inl hc2)
    · set d3 := specAbsSizeStep d2 with hd3
      have hd3A : alignedDets d3 := by
        rw [hd3]; unfold specAbsSizeStep; exact keep3_aligned _ hd2A
      have hs3 : ∀ x ∈ d3.scores, a.thresPrediction ≤ x := fun x hx =>
        hs2 x ((keepMask_sublist _ _).subset hx)
      have hb3a : ∀ x ∈ d3.boxes, boxArea x / ta ≤ a.thresSize := fun x hx =>
        hb2 x ((keepMask_sublist _ _).subset hx)
      have hb3b : ∀ x ∈ d3.boxes, (30 : ℚ) < boxArea x := fun x hx =>
        of_decide_eq_true (mem_keepMask_self
          (fun x => decide ((30 : ℚ) < boxArea x)) d2.boxes x hx)
      by_cases hc3 : d3.boxes.length = 0
      · have hout : specThresholds a ta d = d3 := by
          unfold specThresholds; simp [← hd1, hc1, ← hd2, hc2, ← hd3, hc3]
        rw [hout]
        exact specThresholds_eq_self a ta hd3A hs3 (Or.inl hc3)
      · set d4 := specMaskMassStep d3 with hd4
        have hd4A : alignedDets d4 := by
          rw [hd4]; unfold specMaskMassStep; exact keep3_aligned _ hd3A
        have hs4 : ∀ x ∈ d4.scores, a.thresPrediction ≤ x := fun x hx =>
          hs3 x ((keepMask_sublist _ _).subset hx)
        have hb4a : ∀ x ∈ d4.boxes, boxArea x / ta ≤ a.thresSize :=
          fun x hx => hb3a x ((keepMask_sublist _ _).subset hx)
        have hb4b : ∀ x ∈ d4.boxes, (30 : ℚ) < boxArea x := fun x hx =>
          hb3b x ((keepMask_sublist _ _).subset hx)
        have hm4 : ∀ x ∈ d4.masks, (30 : ℚ) < matSum x := fun x hx =>
          of_decide_eq_true (mem_keepMask_self
            (fun x => decide ((30 : ℚ) < matSum x)) d3.masks x hx)
        have hout : specThresholds a ta d = d4 := by
          unfold specThresholds; simp [← hd1, hc1, ← hd2, hc2, ← hd3, hc3, ← hd4]
        rw [hout]
        exact specThresholds_eq_self a ta hd4A hs4 (Or.inr ⟨hb4a, hb4b, hm4⟩)

/-- C8 (counterexample): `filter_tile` is not idempotent.  On a concrete
one-detection set that survives every threshold, the first application
succeeds (translating the box from the tile origin `(5, 0)` and cropping
the mask), but applying the same filter to that already-filtered output
raises a runtime error (`none`) when it reaches the mask-mass step — the
output's masks are `(anchor, array)` pairs, not arrays — instead of being
a no-op; and the coordinate translation alone would shift the boxes again. -/
theorem filter_tile_not_idempotent :
    filter_tile defaultArgs (toPy ⟨[1], [⟨0, 0, 6, 6⟩], [[[31]]]⟩) 144 5 0 =
      some ⟨[1], [⟨0, 5, 6, 11⟩], [MEntry.anchored (0, 5) [[1]]]⟩ ∧
    filter_tile defaultArgs ⟨[1], [⟨0, 5, 6, 11⟩],
        [MEntry.anchored (0, 5) [[1]]]⟩ 144 5 0 = none := by
  constructor <;>
    norm_num [filter_tile, applyKeep, keepMask, maskSum, matSum, binEntry,
      binarize, cropToBox, cropRect, pyIdx, pyInt, toPy, defaultArgs,
      boxArea, translateBox, List.mapM, mapM_option_loop_cons,
      mapM_option_loop_nil, Option.bind_eq_bind]
  all_goals norm_num [Int.toNat]

/-- C8 (amended): each of the four threshold steps (score, relative size,
absolute size, mask mass) only shrinks the detection set — measured on the
boxes list, the count the source's emptiness checks use — and the
composite threshold chain is idempotent on aligned detection sets.  The
full Detection Filter, which also binarizes, crops and translates, is not
idempotent (see the counterexample). -/
theorem filter_steps_shrink_and_threshold_idem (a : Args) (ta : ℚ)
    (d : SpecDets) :
    ((specScoreStep a.thresPrediction d).boxes.length ≤ d.boxes.length ∧
      (specRelSizeStep a.thresSize ta d).boxes.length ≤ d.boxes.length ∧
      (specAbsSizeStep d).boxes.length ≤ d.boxes.length ∧
      (specMaskMassStep d).boxes.length ≤ d.boxes.length) ∧
    (alignedDets d →
      specThresholds a ta (specThresholds a ta d) = specThresholds a ta d) :=
  ⟨⟨keepMask_length_le _ _, keepMask_length_le _ _, keepMask_length_le _ _,
    keepMask_length_le _ _⟩,
    fun hd => specThresholds_idem a ta d hd⟩

/-- C8 (witness): the shrink bounds and the threshold-chain idempotence at
a concrete aligned one-detection set. -/
theorem filter_steps_shrink_and_threshold_idem_witness :
    alignedDets ⟨[1], [⟨0, 0, 6, 6⟩], [[[31]]]⟩ ∧
      specThresholds defaultArgs 144
          (specThresholds defaultArgs 144 ⟨[1], [⟨0, 0, 6, 6⟩], [[[31]]]⟩) =
        specThresholds defaultArgs 144 ⟨[1], [⟨0, 0, 6, 6⟩], [[[31]]]⟩ :=
  ⟨by decide,
    (filter_steps_shrink_and_threshold_idem defaultArgs 144
      ⟨[1], [⟨0, 0, 6, 6⟩], [[[31]]]⟩).2 (by decide)⟩

/-! ## Checkpoint-writing discipline of the tiling pass -/

theorem mapM_eq_some_map {A B : Type} (f : A → Option B) (g : A → B)
    (h : ∀ x, f x = some (g x)) :
    ∀ l : List A, l.mapM f = some (l.map g)
  | [] => rfl
  | x :: xs => by
    rw [List.mapM_cons, h x, mapM_eq_some_map f g h xs]
    rfl

theorem flatten_ite_singleton {A B : Type} (g : A → B) (P : B → Prop)
    [DecidablePred P] :
    ∀ l : List A,
      (l.map (fun x => if P (g x) then [g x] else [])).flatten =
        (l.map g).filter (fun r => decide (P r))
  | [] => rfl
  | x :: xs => by
    by_cases hx : P (g x) <;>
      simp [hx, flatten_ite_singleton g P xs, List.filter_cons]

theorem extract_tile_eq (a : Args) (detect : ℕ → ℕ → SpecDets)
    (hdet : ∀ i j, alignedDets (detect i j)) (i j : ℕ) :
    extract_tile_run_model_save a detect i j =
      some (if (pyOfFiltered
            (specFilter a (detect i j) (tileAreaOf a) i j)).boxes.length ≠ 0
        then [pyOfFiltered (specFilter a (detect i j) (tileAreaOf a) i j)]
        else []) := by
  unfold extract_tile_run_model_save
  rw [filter_tile_refines a (detect i j) (hdet i j)]
  rfl

/-- C2 (counterexample): with a model that returns no detections anywhere
and the geometry `H = 13, W = 10, T = 5, S = 5` (whose bottom-edge pass
fires), the run writes exactly one checkpoint record — for the bottom-edge
tile — and that record's filtered detection set is empty, contradicting
"a checkpoint record is written only when the tile's filtered set is
non-empty" for edge tiles. -/
theorem edge_tile_writes_empty_record :
    tile_extraction_part ⟨1/10, 3/5, 19/20, 3/10, 5, 5⟩ 13 10
        (fun _ _ => ⟨[], [], []⟩) = some [⟨[], [], []⟩] ∧
      (⟨[], [], []⟩ : PyRes).boxes.length = 0 := by
  constructor
  · decide
  · rfl

/-- C2 (amended): the write-iff-non-empty discipline holds exactly for the
primary-sweep tiles: the primary pass writes the records of precisely
those tiles whose filtered set is non-empty, while the bottom-edge,
right-edge and corner passes write one record per emitted tile
unconditionally, even when the filtered set is empty. -/
theorem checkpoint_records_characterization (a : Args) (H W : ℕ)
    (detect : ℕ → ℕ → SpecDets)
    (hdet : ∀ i j, alignedDets (detect i j)) :
    tile_extraction_part a H W detect = some (
      (((primarySweep H W a.tileSize a.rollingWindow).map (fun t =>
          pyOfFiltered (specFilter a (detect t.1 t.2) (tileAreaOf a)
            t.1 t.2))).filter (fun r => decide (r.boxes.length ≠ 0))) ++
      ((bottomRowTiles H W a.tileSize a.rollingWindow).map (fun t =>
        pyOfFiltered (specFilter a (detect t.1 t.2) (tileAreaOf a)
          t.1 t.2))) ++
      ((rightColTiles H W a.tileSize a.rollingWindow).map (fun t =>
        pyOfFiltered (specFilter a (detect t.1 t.2) (tileAreaOf a)
          t.1 t.2))) ++
      ((cornerTiles H W a.tileSize a.rollingWindow).map (fun t =>
        pyOfFiltered (specFilter a (detect t.1 t.2) (tileAreaOf a)
          t.1 t.2)))) := by
  have hedge : ∀ t : ℕ × ℕ, edgeTileRecord a detect t =
      some (pyOfFiltered (specFilter a (detect t.1 t.2) (tileAreaOf a)
        t.1 t.2)) := by
    intro t
    unfold edgeTileRecord
    exact filter_tile_refines a (detect t.1 t.2) (hdet t.1 t.2) _ _ _
  have hprim : primaryPartRecords a H W detect =
      some (((primarySweep H W a.tileSize a.rollingWindow).map (fun t =>
        pyOfFiltered (specFilter a (detect t.1 t.2) (tileAreaOf a)
          t.1 t.2))).filter (fun r => decide (r.boxes.length ≠ 0))) := by
    unfold primaryPartRecords
    rw [mapM_eq_some_map _
      (fun t : ℕ × ℕ => if (pyOfFiltered (specFilter a (detect t.1 t.2)
          (tileAreaOf a) t.1 t.2)).boxes.length ≠ 0
        then [pyOfFiltered (specFilter a (detect t.1 t.2) (tileAreaOf a)
          t.1 t.2)]
        else [])
      (fun t => extract_tile_eq a detect hdet t.1 t.2)]
    rw [Option.bind_eq_bind, Option.some_bind,
      flatten_ite_singleton (fun t : ℕ × ℕ =>
        pyOfFiltered (specFilter a (detect t.1 t.2) (tileAreaOf a) t.1 t.2))
        (fun r => r.boxes.length ≠ 0)]
    rfl
  unfold tile_extraction_part
  rw [hprim, mapM_eq_some_map _ _ hedge, mapM_eq_some_map _ _ hedge,
    mapM_eq_some_map _ _ hedge]
  rfl

/-- C2 (witness): the record characterization applied to the concrete
empty-model run of the counterexample geometry. -/
theorem checkpoint_records_characterization_witness :
    (∀ i j : ℕ,
      alignedDets ((fun _ _ => (⟨[], [], []⟩ : SpecDets)) i j)) ∧
    tile_extraction_part ⟨1/10, 3/5, 19/20, 3/10, 5, 5⟩ 13 10
        (fun _ _ => ⟨[], [], []⟩) = some (
      (((primarySweep 13 10 5 5).map (fun t =>
          pyOfFiltered (specFilter ⟨1/10, 3/5, 19/20, 3/10, 5, 5⟩
            ((fun _ _ => (⟨[], [], []⟩ : SpecDets)) t.1 t.2)
            (tileAreaOf ⟨1/10, 3/5, 19/20, 3/10, 5, 5⟩)
            t.1 t.2))).filter (fun r => decide (r.boxes.length ≠ 0))) ++
      ((bottomRowTiles 13 10 5 5).map (fun t =>
        pyOfFiltered (specFilter ⟨1/10, 3/5, 19/20, 3/10, 5, 5⟩
          ((fun _ _ => (⟨[], [], []⟩ : SpecDets)) t.1 t.2)
          (tileAreaOf ⟨1/10, 3/5, 19/20, 3/10, 5, 5⟩) t.1 t.2))) ++
      ((rightColTiles 13 10 5 5).map (fun t =>
        pyOfFiltered (specFilter ⟨1/10, 3/5, 19/20, 3/10, 5, 5⟩
          ((fun _ _ => (⟨[], [], []⟩ : SpecDets)) t.1 t.2)
          (tileAreaOf ⟨1/10, 3/5, 19/20, 3/10, 5, 5⟩) t.1 t.2))) ++
      ((cornerTiles 13 10 5 5).map (fun t =>
        pyOfFiltered (specFilter ⟨1/10, 3/5, 19/20, 3/10, 5, 5⟩
          ((fun _ _ => (⟨[], [], []⟩ : SpecDets)) t.1 t.2)
          (tileAreaOf ⟨1/10, 3/5, 19/20, 3/10, 5, 5⟩) t.1 t.2)))) :=
  ⟨fun _ _ => ⟨rfl, rfl⟩,
    checkpoint_records_characterization ⟨1/10, 3/5, 19/20, 3/10, 5, 5⟩ 13 10
      (fun _ _ => ⟨[], [], []⟩) (fun _ _ => ⟨rfl, rfl⟩)⟩

/-! ## The Checkpoint Store loader -/

theorem flatMap_congr_mem {A B : Type} :
    ∀ (l : List A) (f g : A → List B), (∀ x ∈ l, f x = g x) →
      l.flatMap f = l.flatMap g
  | [], _, _, _ => rfl
  | x :: xs, f, g, h => by
    rw [List.flatMap_cons, List.flatMap_cons, h x (List.mem_cons_self x xs),
      flatMap_congr_mem xs f g (fun y hy => h y (List.mem_cons_of_mem x hy))]

theorem flatten_flatMap {A B : Type} :
    ∀ (l : List A) (f : A → List (List B)),
      (l.flatMap f).flatten = l.flatMap (fun x => (f x).flatten)
  | [], _ => rfl
  | x :: xs, f => by
    rw [List.flatMap_cons, List.flatMap_cons, List.flatten_append,
      flatten_flatMap xs f]

theorem recordTriples_proj (r : StoredRecord) (h : recordWF r) :
    (recordTriples r).map (fun p => p.1) = flattenBoxes r.boxes ∧
      (recordTriples r).map (fun p => p.2.1) =
        (scoreChunks r.scores).flatten ∧
      (recordTriples r).map (fun p => p.2.2) = r.masks := by
  obtain ⟨hS, hM⟩ := h
  unfold recordTriples
  have hzip : ((scoreChunks r.scores).flatten.zip r.masks).length =
      (flattenBoxes r.boxes).length := by
    rw [List.length_zip, hS, hM, Nat.min_self]
  refine ⟨List.map_fst_zip _ _ (le_of_eq hzip.symm), ?_, ?_⟩
  · have : (fun p : Box × ℚ × ((ℕ × ℕ) × ZMat) => p.2.1) =
        (Prod.fst ∘ Prod.snd) := rfl
    rw [this, ← List.map_map,
      List.map_snd_zip _ _ (le_of_eq hzip),
      List.map_fst_zip _ _ (by rw [hS, hM])]
  · have : (fun p : Box × ℚ × ((ℕ × ℕ) × ZMat) => p.2.2) =
        (Prod.snd ∘ Prod.snd) := rfl
    rw [this, ← List.map_map,
      List.map_snd_zip _ _ (le_of_eq hzip),
      List.map_snd_zip _ _ (by rw [hS, hM])]

/-- C4 (counterexample): with zero stored records the loader does not
succeed — the stacking step (`torch.vstack` of an empty list) raises — so
"loadAll succeeds for any number of stored records including zero" fails
at the empty record list. -/
theorem load_all_steps_fails_on_empty : load_all_steps [] = none := rfl

/-- C4 (amended): loadAll succeeds for any list of well-formed records
containing at least one detection overall, and then it normalizes the
per-record shape irregularities into one flat collection per component,
positionally aligned: the returned boxes, scores and masks are the three
projections of the concatenated per-record `(box, score, mask)` triples.
With zero records, or none holding a detection, loadAll fails. -/
theorem load_all_steps_flattens_aligned (records : List StoredRecord)
    (hwf : ∀ r ∈ records, recordWF r)
    (hne : records.flatMap (fun r => flattenBoxes r.boxes) ≠ []) :
    load_all_steps records =
      some (aggOfTriples (records.flatMap recordTriples)) := by
  have hproj := fun r (hr : r ∈ records) => recordTriples_proj r (hwf r hr)
  have hboxes : (records.flatMap recordTriples).map (fun p => p.1) =
      records.flatMap (fun r => flattenBoxes r.boxes) := by
    rw [List.map_flatMap]
    exact flatMap_congr_mem records _ _ (fun r hr => (hproj r hr).1)
  have hscores : (records.flatMap recordTriples).map (fun p => p.2.1) =
      (records.flatMap (fun r => scoreChunks r.scores)).flatten := by
    rw [List.map_flatMap, flatten_flatMap]
    exact flatMap_congr_mem records _ _ (fun r hr => (hproj r hr).2.1)
  have hmasks : (records.flatMap recordTriples).map (fun p => p.2.2) =
      records.flatMap (fun r => r.masks) := by
    rw [List.map_flatMap]
    exact flatMap_congr_mem records _ _ (fun r hr => (hproj r hr).2.2)
  have hch : records.flatMap (fun r => scoreChunks r.scores) ≠ [] := by
    intro hc
    apply hne
    have h0 : (records.flatMap (fun r => scoreChunks r.scores)).flatten
        = [] := by rw [hc]; rfl
    rw [← hscores] at h0
    have h1 : (records.flatMap recordTriples).map (fun p => p.1) = [] := by
      rcases List.map_eq_nil_iff.mp h0 with he
      rw [he]; rfl
    rw [hboxes] at h1
    exact h1
  unfold load_all_steps
  rw [if_neg hne, if_neg hch]
  unfold aggOfTriples
  rw [hboxes, hscores, hmasks]

/-- C4 (witness): the loader characterization applied to one concrete
well-formed record holding a single detection. -/
theorem load_all_steps_flattens_aligned_witness :
    (∀ r ∈ [(⟨[ScoreEntry.scalar (9/10)], [BoxEntry.single ⟨0, 0, 1, 1⟩],
        [((0, 0), [[1]])]⟩ : StoredRecord)], recordWF r) ∧
      [(⟨[ScoreEntry.scalar (9/10)], [BoxEntry.single ⟨0, 0, 1, 1⟩],
        [((0, 0), [[1]])]⟩ : StoredRecord)].flatMap
          (fun r => flattenBoxes r.boxes) ≠ [] ∧
      load_all_steps [⟨[ScoreEntry.scalar (9/10)],
          [BoxEntry.single ⟨0, 0, 1, 1⟩], [((0, 0), [[1]])]⟩] =
        some (aggOfTriples ([(⟨[ScoreEntry.scalar (9/10)],
          [BoxEntry.single ⟨0, 0, 1, 1⟩],
          [((0, 0), [[1]])]⟩ : StoredRecord)].flatMap recordTriples)) :=
  ⟨by decide, by decide,
    load_all_steps_flattens_aligned _ (by decide) (by decide)⟩

/-! ## Input normalization dispatch -/

/-- C9 (counterexample): `int16` is a 16-bit dtype, yet `normalize_8_bit`
raises the unsupported-dtype error for it instead of dividing by `2^16` —
the code's 16-bit family is only `float16`/`uint16`. -/
theorem normalize_rejects_int16 :
    normalize_8_bit NpDtype.int16 [[2^16]] = Except.error "Invalid dtype" ∧
      normalize_8_bit NpDtype.int16 [[2^16]] ≠ Except.ok [[1]] :=
  ⟨rfl, fun h => by simp [normalize_8_bit] at h⟩

/-- C9 (amended): the normalizer divides by `2^8` for signed 8-bit
(`int8`), by `2^16` for the float/unsigned 16-bit variants (`float16`,
`uint16`), by `2^32` for `float32`/`uint32`, and by `2^64` for
`float64`/`uint64`; every other dtype — including unsigned 8-bit, the
signed 16/32/64-bit integers, booleans and both complex dtypes — raises
the unsupported-dtype error, so no normalized image is produced for a
complex-valued array. -/
theorem normalize_dispatch (img : QMat) :
    normalize_8_bit NpDtype.int8 img = Except.ok (divImage img (2^8)) ∧
    normalize_8_bit NpDtype.float16 img = Except.ok (divImage img (2^16)) ∧
    normalize_8_bit NpDtype.uint16 img = Except.ok (divImage img (2^16)) ∧
    normalize_8_bit NpDtype.float32 img = Except.ok (divImage img (2^32)) ∧
    normalize_8_bit NpDtype.uint32 img = Except.ok (divImage img (2^32)) ∧
    normalize_8_bit NpDtype.float64 img = Except.ok (divImage img (2^64)) ∧
    normalize_8_bit NpDtype.uint64 img = Except.ok (divImage img (2^64)) ∧
    normalize_8_bit NpDtype.uint8 img = Except.error "Invalid dtype" ∧
    normalize_8_bit NpDtype.int16 img = Except.error "Invalid dtype" ∧
    normalize_8_bit NpDtype.int32 img = Except.error "Invalid dtype" ∧
    normalize_8_bit NpDtype.int64 img = Except.error "Invalid dtype" ∧
    normalize_8_bit NpDtype.complex64 img = Except.error "Invalid dtype" ∧
    normalize_8_bit NpDtype.complex128 img = Except.error "Invalid dtype" ∧
    normalize_8_bit NpDtype.boolType img = Except.error "Invalid dtype" :=
  ⟨rfl, rfl, rfl, rfl, rfl, rfl, rfl, rfl, rfl, rfl, rfl, rfl, rfl, rfl⟩

/-! ## The pipeline prologue lists `step1` before creating it -/

/-- C10: whenever `<output>/step1` does not exist yet — in particular on
every first run into a fresh output directory, since the main block
creates only `<output>` itself — the pipeline's directory listing on
main.py line 298 raises `FileNotFoundError` before `os.makedirs` runs,
before the model is loaded, and before any tile is processed. -/
theorem pipeline_lists_before_creating_step1 (dirs : List DirPath)
    (out : String) (h : [out, "step1"] ∉ dirs) :
    run_main dirs out = ([], some "FileNotFoundError") ∧
      PEvent.loadedModel ∉ (run_main dirs out).1 ∧
      PEvent.processedTiles ∉ (run_main dirs out).1 := by
  have hmem : [out, "step1"] ∉
      (if [out] ∈ dirs then dirs else [out] :: dirs) := by
    by_cases hc : [out] ∈ dirs
    · simpa [hc] using h
    · simp only [hc, if_neg, if_false]
      intro hx
      rcases List.mem_cons.mp hx with he | hx2
      · simp at he
      · exact h hx2
  unfold run_main pipeline_prologue
  rw [if_neg hmem]
  exact ⟨rfl, by simp, by simp⟩

/-- C10 (witness): the fresh-output-directory run at a concrete empty
filesystem aborts with the file-not-found error. -/
theorem pipeline_lists_before_creating_step1_witness :
    ([("out" : String), "step1"] ∉ ([] : List DirPath)) ∧
      run_main [] "out" = ([], some "FileNotFoundError") ∧
      PEvent.loadedModel ∉ (run_main [] "out").1 ∧
      PEvent.processedTiles ∉ (run_main [] "out").1 :=
  ⟨List.not_mem_nil _,
    (pipeline_lists_before_creating_step1 [] "out" (List.not_mem_nil _)).1,
    (pipeline_lists_before_creating_step1 [] "out" (List.not_mem_nil _)).2.1,
    (pipeline_lists_before_creating_step1 [] "out" (List.not_mem_nil _)).2.2⟩

/-! ## Global deduplication -/

theorem getD_map_of_lt {A B : Type} (f : A → B) (l : List A) (k : ℕ)
    (d : B) (dA : A) (hk : k < l.length) :
    (l.map f).getD k d = f (l.getD k dA) := by
  rw [List.getD_eq_getElem _ _ (by simpa using hk),
    List.getElem_map, List.getD_eq_getElem _ _ hk]

theorem applyIndices_of_triples (l : List (Box × ℚ × ((ℕ × ℕ) × ZMat)))
    (idxs : List ℕ) (h : ∀ k ∈ idxs, k < l.length) :
    applyIndices (aggOfTriples l) idxs =
      aggOfTriples (idxs.map (fun k => l.getD k default)) := by
  unfold applyIndices aggOfTriples
  refine AggSet.mk.injEq _ _ _ _ _ _ ▸ ?_
  refine ⟨?_, ?_, ?_⟩ <;>
    rw [List.map_map] <;>
    refine List.map_congr_left (fun k hk => ?_)
  · exact getD_map_of_lt (fun p => p.2.1) l k 0 default (h k hk)
  · exact getD_map_of_lt (fun p => p.1) l k default default (h k hk)
  · exact getD_map_of_lt (fun p => p.2.2) l k ((0, 0), []) default (h k hk)

/-- C6: applying the kept-index list uniformly to boxes, scores and masks
preserves positional alignment — on an aggregated set assembled from
`(box, score, mask)` triples, the deduplicated output is exactly the
triples selected at those indices — and the greedy NMS model behaves as
claimed on the concrete examples: for two boxes with IoU `1/2` and
threshold `1/10` exactly the higher-scoring one survives, and with IoU
`1/20 = 0.05` and threshold `1/10` both survive, in score order. -/
theorem nms_dedup_alignment_and_examples :
    (∀ (l : List (Box × ℚ × ((ℕ × ℕ) × ZMat))) (idxs : List ℕ),
      (∀ k ∈ idxs, k < l.length) →
      applyIndices (aggOfTriples l) idxs =
        aggOfTriples (idxs.map (fun k => l.getD k default))) ∧
    iou ⟨0, 0, 3, 1⟩ ⟨1, 0, 4, 1⟩ = 1/2 ∧
    nms [⟨0, 0, 3, 1⟩, ⟨1, 0, 4, 1⟩] [9/10, 8/10] (1/10) = [0] ∧
    iou ⟨0, 0, 21, 1⟩ ⟨19, 0, 40, 1⟩ = 1/20 ∧
    nms [⟨0, 0, 21, 1⟩, ⟨19, 0, 40, 1⟩] [9/10, 8/10] (1/10) = [0, 1] := by
  refine ⟨applyIndices_of_triples, ?_, ?_, ?_, ?_⟩ <;>
    norm_num [nms, nmsGo, argmaxScore, iou, boxArea, List.range_succ]

/-- C6 (witness): the alignment half applied to a concrete two-triple
aggregate and the index list `[1, 0]`. -/
theorem nms_dedup_alignment_witness :
    (∀ k ∈ [1, 0], k <
      [((⟨0, 0, 3, 1⟩ : Box), (9 : ℚ)/10, ((0, 0), [[1]])),
        ((⟨1, 0, 4, 1⟩ : Box), (8 : ℚ)/10, ((0, 5), [[1, 1]]))].length) ∧
    applyIndices (aggOfTriples
        [((⟨0, 0, 3, 1⟩ : Box), (9 : ℚ)/10, ((0, 0), [[1]])),
          ((⟨1, 0, 4, 1⟩ : Box), (8 : ℚ)/10, ((0, 5), [[1, 1]]))]) [1, 0] =
      aggOfTriples ([1, 0].map (fun k =>
        [((⟨0, 0, 3, 1⟩ : Box), (9 : ℚ)/10, ((0, 0), [[1]])),
          ((⟨1, 0, 4, 1⟩ : Box), (8 : ℚ)/10,
            ((0, 5), [[1, 1]]))].getD k default)) :=
  ⟨by decide,
    nms_dedup_alignment_and_examples.1 _ [1, 0] (by decide)⟩

/-! ## Canvas compositing -/

theorem length_mapWithIdx {α β : Type} (f : ℕ → α → β) :
    ∀ (n : ℕ) (l : List α), (mapWithIdx f n l).length = l.length
  | _, [] => rfl
  | n, x :: xs => by
    simp [mapWithIdx, length_mapWithIdx f (n + 1) xs]

theorem getD_mapWithIdx {α β : Type} (f : ℕ → α → β) :
    ∀ (n : ℕ) (l : List α) (r : ℕ) (d : β) (dA : α), r < l.length →
      (mapWithIdx f n l).getD r d = f (n + r) (l.getD r dA)
  | _, [], r, _, _, h => by simp at h
  | n, x :: xs, 0, d, dA, _ => by
    simp [mapWithIdx, List.getD_cons_zero]
  | n, x :: xs, r + 1, d, dA, h => by
    simp only [mapWithIdx, List.getD_cons_succ]
    rw [getD_mapWithIdx f (n + 1) xs r d dA (by simpa using h)]
    congr 1
    omega

theorem getCell_zeros (H W r c : ℕ) : getCell (zeros H W) r c = 0 := by
  unfold getCell zeros
  by_cases hr : r < H
  · rw [List.getD_eq_getElem (List.replicate H (List.replicate W (0 : ℤ)))
        [] (by simpa using hr), List.getElem_replicate]
    by_cases hc : c < W
    · rw [List.getD_eq_getElem (List.replicate W (0 : ℤ)) 0
          (by simpa using hc), List.getElem_replicate]
    · rw [List.getD_eq_default (List.replicate W (0 : ℤ)) 0
          (by simpa using hc)]
  · rw [List.getD_eq_default (List.replicate H (List.replicate W (0 : ℤ)))
        [] (by simpa using hr)]
    rfl

theorem length_addAt (canvas : ZMat) (r0 c0 : ℤ) (m : ZMat) :
    (addAt canvas r0 c0 m).length = canvas.length :=
  length_mapWithIdx _ _ _

theorem rowlen_addAt (canvas : ZMat) (r0 c0 : ℤ) (m : ZMat) (r : ℕ) :
    ((addAt canvas r0 c0 m).getD r []).length =
      (canvas.getD r []).length := by
  by_cases hr : r < canvas.length
  · unfold addAt
    rw [getD_mapWithIdx _ 0 canvas r [] [] hr]
    exact length_mapWithIdx _ _ _
  · unfold addAt
    rw [List.getD_eq_default _ _
        (by rw [length_mapWithIdx]; omega),
      List.getD_eq_default _ _ (by omega)]

theorem getCell_addAt (canvas : ZMat) (r0 c0 : ℤ) (m : ZMat) (r c : ℕ)
    (hr : r < canvas.length) (hc : c < (canvas.getD r []).length) :
    getCell (addAt canvas r0 c0 m) r c =
      getCell canvas r c + maskContrib r0 c0 m r c := by
  unfold addAt getCell maskContrib
  rw [getD_mapWithIdx _ 0 canvas r [] [] hr,
    getD_mapWithIdx _ 0 (canvas.getD r []) c 0 0 hc]
  simp only [Nat.zero_add]
  by_cases h : r0 ≤ (r : ℤ) ∧ (r : ℤ) < r0 + m.length ∧ c0 ≤ (c : ℤ) ∧
      (c : ℤ) < c0 + ((m.getD ((r : ℤ) - r0).toNat []).length : ℤ)
  · rw [if_pos h, if_pos h]
  · rw [if_neg h, if_neg h]
    omega

theorem length_composite_fold (boxes : List Box)
    (masks : List ((ℕ × ℕ) × ZMat)) :
    ∀ (l : List ℕ) (canvas : ZMat),
      (l.foldl (fun cv i => compositeStep cv i (boxes.getD i default)
        (masks.getD i ((0, 0), []))) canvas).length = canvas.length
  | [], _ => rfl
  | i :: is, canvas => by
    rw [List.foldl_cons, length_composite_fold boxes masks is _]
    unfold compositeStep
    exact length_addAt _ _ _ _

theorem rowlen_composite_fold (boxes : List Box)
    (masks : List ((ℕ × ℕ) × ZMat)) :
    ∀ (l : List ℕ) (canvas : ZMat) (r : ℕ),
      ((l.foldl (fun cv i => compositeStep cv i (boxes.getD i default)
          (masks.getD i ((0, 0), []))) canvas).getD r []).length =
        (canvas.getD r []).length
  | [], _, _ => rfl
  | i :: is, canvas, r => by
    rw [List.foldl_cons, rowlen_composite_fold boxes masks is _ r]
    unfold compositeStep
    exact rowlen_addAt _ _ _ _ r

theorem getCell_composite_fold (boxes : List Box)
    (masks : List ((ℕ × ℕ) × ZMat)) :
    ∀ (k start : ℕ) (canvas : ZMat) (r c : ℕ), r < canvas.length →
      c < (canvas.getD r []).length →
      getCell ((List.range' start k).foldl
          (fun cv i => compositeStep cv i (boxes.getD i default)
            (masks.getD i ((0, 0), []))) canvas) r c =
        getCell canvas r c +
          ∑ i in Finset.range k, detContrib boxes masks (start + i) r c
  | 0, start, canvas, r, c, _, _ => by
    simp [List.range']
  | k + 1, start, canvas, r, c, hr, hc => by
    rw [List.range'_succ, List.foldl_cons]
    have hr2 : r < (compositeStep canvas start (boxes.getD start default)
        (masks.getD start ((0, 0), []))).length := by
      unfold compositeStep; rw [length_addAt]; exact hr
    have hc2 : c < ((compositeStep canvas start (boxes.getD start default)
        (masks.getD start ((0, 0), []))).getD r []).length := by
      unfold compositeStep; rw [rowlen_addAt]; exact hc
    rw [getCell_composite_fold boxes masks k (start + 1) _ r c hr2 hc2]
    have hstep : getCell (compositeStep canvas start
        (boxes.getD start default) (masks.getD start ((0, 0), []))) r c =
        getCell canvas r c + detContrib boxes masks start r c := by
      unfold compositeStep detContrib
      exact getCell_addAt _ _ _ _ _ _ hr hc
    rw [hstep, Finset.sum_range_succ']
    have hsum : ∑ i in Finset.range k,
        detContrib boxes masks (start + 1 + i) r c =
        ∑ i in Finset.range k, detContrib boxes masks (start + (i + 1)) r c :=
      Finset.sum_congr rfl (fun i _ => by
        have : start + 1 + i = start + (i + 1) := by omega
        rw [this])
    rw [hsum]
    have : start + 0 = start := by omega
    rw [this]
    omega

theorem composite_length (H W : ℕ) (boxes : List Box)
    (masks : List ((ℕ × ℕ) × ZMat)) :
    (composite H W boxes masks).length = H := by
  unfold composite
  rw [length_composite_fold]
  simp [zeros]

theorem composite_rowlen (H W : ℕ) (boxes : List Box)
    (masks : List ((ℕ × ℕ) × ZMat)) (r : ℕ) (hr : r < H) :
    ((composite H W boxes masks).getD r []).length = W := by
  unfold composite
  rw [rowlen_composite_fold]
  unfold zeros
  rw [List.getD_eq_getElem _ _ (by simpa using hr), List.getElem_replicate]
  simp

theorem composite_cell_formula (H W : ℕ) (boxes : List Box)
    (masks : List ((ℕ × ℕ) × ZMat)) (r c : ℕ) (hr : r < H) (hc : c < W) :
    getCell (composite H W boxes masks) r c =
      ∑ i in Finset.range boxes.length, detContrib boxes masks i r c := by
  unfold composite
  rw [List.range_eq_range']
  have h1 : r < (zeros H W).length := by simpa [zeros] using hr
  have h2 : c < ((zeros H W).getD r []).length := by
    unfold zeros
    rw [List.getD_eq_getElem _ _ (by simpa using hr), List.getElem_replicate]
    simpa using hc
  rw [getCell_composite_fold boxes masks boxes.length 0 (zeros H W) r c h1 h2,
    getCell_zeros]
  simp

theorem scaleMask_entries (k : ℤ) (m : ZMat)
    (h : ∀ row ∈ m, ∀ v ∈ row, v = 0 ∨ v = 1) :
    ∀ row ∈ scaleMask k m, ∀ v ∈ row, v = 0 ∨ v = k := by
  intro row hrow v hv
  rcases List.mem_map.mp hrow with ⟨row0, hrow0, rfl⟩
  rcases List.mem_map.mp hv with ⟨v0, hv0, rfl⟩
  rcases h row0 hrow0 v0 hv0 with h0 | h1
  · left; rw [h0, mul_zero]
  · right; rw [h1, mul_one]

theorem cropInt_entries (hgt wd : ℤ) (m : ZMat) (P : ℤ → Prop)
    (h : ∀ row ∈ m, ∀ v ∈ row, P v) :
    ∀ row ∈ cropInt m hgt wd, ∀ v ∈ row, P v := by
  intro row hrow v hv
  rcases List.mem_map.mp hrow with ⟨row0, hrow0, rfl⟩
  exact h row0 (List.mem_of_mem_take hrow0) v (List.mem_of_mem_take hv)

theorem effectiveMask_entries (idx : ℕ) (b : Box) (am : (ℕ × ℕ) × ZMat)
    (h : ∀ row ∈ am.2, ∀ v ∈ row, v = 0 ∨ v = 1) :
    ∀ row ∈ effectiveMask idx b am, ∀ v ∈ row,
      v = 0 ∨ v = (idx : ℤ) + 1 := by
  unfold effectiveMask
  have hs := scaleMask_entries ((idx : ℤ) + 1) am.2 h
  by_cases hcond : pyInt b.y1 - pyInt b.y0 ≠
      ((scaleMask ((idx : ℤ) + 1) am.2).length : ℤ) ∨
      pyInt b.x1 - pyInt b.x0 ≠
        ((matWidth (scaleMask ((idx : ℤ) + 1) am.2)) : ℤ)
  · rw [if_pos hcond]
    exact cropInt_entries _ _ _ _ hs
  · rw [if_neg hcond]
    exact hs

theorem maskContrib_cases (r0 c0 : ℤ) (m : ZMat) (r c : ℕ) (K : ℤ)
    (h : ∀ row ∈ m, ∀ v ∈ row, v = 0 ∨ v = K) :
    maskContrib r0 c0 m r c = 0 ∨ maskContrib r0 c0 m r c = K := by
  unfold maskContrib
  by_cases hcond : r0 ≤ (r : ℤ) ∧ (r : ℤ) < r0 + m.length ∧ c0 ≤ (c : ℤ) ∧
      (c : ℤ) < c0 + ((m.getD ((r : ℤ) - r0).toNat []).length : ℤ)
  · rw [if_pos hcond]
    by_cases hrm : ((r : ℤ) - r0).toNat < m.length
    · have hrow : m.getD ((r : ℤ) - r0).toNat [] ∈ m := by
        rw [List.getD_eq_getElem _ _ hrm]
        exact List.getElem_mem hrm
      by_cases hcm : ((c : ℤ) - c0).toNat <
          (m.getD ((r : ℤ) - r0).toNat []).length
      · have hv : (m.getD ((r : ℤ) - r0).toNat []).getD
            ((c : ℤ) - c0).toNat 0 ∈ m.getD ((r : ℤ) - r0).toNat [] := by
          rw [List.getD_eq_getElem _ _ hcm]
          exact List.getElem_mem hcm
        exact h _ hrow _ hv
      · left
        rw [List.getD_eq_default _ _ (by omega)]
    · left
      have hempty : m.getD ((r : ℤ) - r0).toNat [] = ([] : List ℤ) :=
        List.getD_eq_default _ _ (by omega)
      rw [hempty]
      rfl
  · left
    rw [if_neg hcond]

theorem detContrib_cases (boxes : List Box)
    (masks : List ((ℕ × ℕ) × ZMat)) (i r c : ℕ)
    (hbin : binaryMasks masks) :
    detContrib boxes masks i r c = 0 ∨
      detContrib boxes masks i r c = (i : ℤ) + 1 := by
  unfold detContrib
  apply maskContrib_cases
  apply effectiveMask_entries
  by_cases hi : i < masks.length
  · have hmem : masks.getD i ((0, 0), []) ∈ masks := by
      rw [List.getD_eq_getElem _ _ hi]
      exact List.getElem_mem hi
    exact hbin _ hmem
  · intro row hrow
    rw [List.getD_eq_default _ _ (by omega)] at hrow
    exact absurd hrow (List.not_mem_nil row)

theorem composite_cell_subset_sum (H W : ℕ) (boxes : List Box)
    (masks : List ((ℕ × ℕ) × ZMat)) (r c : ℕ) (hr : r < H) (hc : c < W)
    (hbin : binaryMasks masks) :
    ∃ s ⊆ Finset.range boxes.length,
      getCell (composite H W boxes masks) r c = ∑ i in s, ((i : ℤ) + 1) := by
  rw [composite_cell_formula H W boxes masks r c hr hc]
  refine ⟨(Finset.range boxes.length).filter
    (fun i => detContrib boxes masks i r c ≠ 0), Finset.filter_subset _ _, ?_⟩
  rw [← Finset.sum_filter_ne_zero]
  exact Finset.sum_congr rfl (fun i hi => by
    rcases detContrib_cases boxes masks i r c hbin with h0 | h1
    · exact absurd h0 (Finset.mem_filter.mp hi).2
    · exact h1)

/-- C5: the Canvas Compositor always produces a canvas with exactly the
original image's shape from a zero-initialized canvas; each surviving
detection `i` (in deduplicated order, 0-based) contributes its binary
mask times `i + 1` additively (cropped further to the smaller of the mask
shape and the box extent when the two disagree), so every in-canvas cell
is the sum of the per-detection contributions; and when all masks are
binary, every cell is `0` or a sum of the instance ids `i + 1` of the
detections covering it. -/
theorem canvas_composite_additive :
    (∀ (H W : ℕ) (boxes : List Box) (masks : List ((ℕ × ℕ) × ZMat)),
      (composite H W boxes masks).length = H ∧
      ∀ r : ℕ, r < H → ((composite H W boxes masks).getD r []).length = W) ∧
    (∀ (H W : ℕ) (boxes : List Box) (masks : List ((ℕ × ℕ) × ZMat))
      (r c : ℕ), r < H → c < W →
      getCell (composite H W boxes masks) r c =
        ∑ i in Finset.range boxes.length, detContrib boxes masks i r c) ∧
    (∀ (H W : ℕ) (boxes : List Box) (masks : List ((ℕ × ℕ) × ZMat))
      (r c : ℕ), r < H → c < W → binaryMasks masks →
      ∃ s ⊆ Finset.range boxes.length,
        getCell (composite H W boxes masks) r c =
          ∑ i in s, ((i : ℤ) + 1)) :=
  ⟨fun H W boxes masks =>
    ⟨composite_length H W boxes masks,
      fun r hr => composite_rowlen H W boxes masks r hr⟩,
   fun H W boxes masks r c hr hc =>
    composite_cell_formula H W boxes masks r c hr hc,
   fun H W boxes masks r c hr hc hbin =>
    composite_cell_subset_sum H W boxes masks r c hr hc hbin⟩

/-- C5 (witness): the compositing theorem applied at a concrete `3×3`
canvas with two overlapping binary detections — the overlap cell holds
`1 + 2 = 3`, the sum of the two instance ids. -/
theorem canvas_composite_additive_witness :
    (1 : ℕ) < 3 ∧ binaryMasks [((0, 0), [[1, 1], [1, 1]]),
        ((0, 0), [[1, 1], [1, 1]])] ∧
      getCell (composite 3 3 [⟨0, 0, 2, 2⟩, ⟨1, 1, 3, 3⟩]
          [((0, 0), [[1, 1], [1, 1]]), ((0, 0), [[1, 1], [1, 1]])]) 1 1 =
        ∑ i in Finset.range 2, detContrib [⟨0, 0, 2, 2⟩, ⟨1, 1, 3, 3⟩]
          [((0, 0), [[1, 1], [1, 1]]), ((0, 0), [[1, 1], [1, 1]])] i 1 1 ∧
      ∃ s ⊆ Finset.range 2,
        getCell (composite 3 3 [⟨0, 0, 2, 2⟩, ⟨1, 1, 3, 3⟩]
            [((0, 0), [[1, 1], [1, 1]]), ((0, 0), [[1, 1], [1, 1]])]) 1 1 =
          ∑ i in s, ((i : ℤ) + 1) :=
  ⟨by decide, by decide,
    canvas_composite_additive.2.1 3 3 [⟨0, 0, 2, 2⟩, ⟨1, 1, 3, 3⟩]
      [((0, 0), [[1, 1], [1, 1]]), ((0, 0), [[1, 1], [1, 1]])] 1 1
      (by decide) (by decide),
    canvas_composite_additive.2.2 3 3 [⟨0, 0, 2, 2⟩, ⟨1, 1, 3, 3⟩]
      [((0, 0), [[1, 1], [1, 1]]), ((0, 0), [[1, 1], [1, 1]])] 1 1
      (by decide) (by decide) (by decide)⟩

end Seg
